import Mathlib

/-!
Shallow embedding of the process-exporter tracking pipeline.

This file embeds, in Lean 4, the parts of ncabatoff/process-exporter that the
checked claims are about:

* the `Counts`/`updateProc`/`Track` layer of `proc/tracker.go` (the version
  whose `Tracker` carries `Tracked`, `procIds` and `trackChildren`), used by
  the `Grouper` of `proc/grouper.go` (`curgroups`, `Groups`);
* the later `Tracker` of `proc/tracker.go` (ID-keyed, with tombstones,
  `handleProc`, `update`, `checkAncestry` and `Update`);
* `proc.GetMetrics` of `proc/read.go`;
* `parseNameMapper` / `nameMapperRegex.MatchAndName` of
  `cmd/process-exporter/main.go`.

Go `uint64` arithmetic is modelled as `Nat` with explicit reduction modulo
2^64 where the code can wrap; Go `int64` as `Int` with the same wrap on
conversion; Go `float64` counters as `Rat`, except where division by zero and
infinities matter, where a dedicated `GoFloat` type models the IEEE values.
Go maps are modelled as association lists with first-match lookup;
map iteration order, unspecified in Go, is the list order of the model.
-/

namespace PE

/-- Two to the sixty-fourth: the modulus of Go `uint64` arithmetic. -/
def W : Nat := 2 ^ 64

/-- Go `uint64` addition (wraps modulo 2^64). -/
def u64add (a b : Nat) : Nat := (a + b) % W

/-- Go `uint64` subtraction (wraps modulo 2^64); faithful for `a b < W`. -/
def u64sub (a b : Nat) : Nat := (a + (W - b % W)) % W

/-- Go conversion `uint64(x)` of an `int64` value `x`: reduction mod 2^64. -/
def i64toU64 (x : Int) : Nat := (x % (W : Int)).toNat

/-- First-match lookup in an association list (Go map read). -/
def lookupA {κ β : Type} [DecidableEq κ] : List (κ × β) → κ → Option β
  | [], _ => none
  | (k, v) :: rest, k0 => if k0 = k then some v else lookupA rest k0

/-- Remove every binding of a key (helper for Go map write/delete). -/
def eraseA {κ β : Type} [DecidableEq κ] (m : List (κ × β)) (k : κ) : List (κ × β) :=
  m.filter (fun e => e.1 ≠ k)

/-- Go map write `m[k] = v`: bind `k` to `v`, shadowing any old binding. -/
def insertA {κ β : Type} [DecidableEq κ] (m : List (κ × β)) (k : κ) (v : β) : List (κ × β) :=
  (k, v) :: eraseA m k

/-- Keys of an association list are pairwise distinct. -/
def NodupKeys {κ β : Type} (l : List (κ × β)) : Prop := (l.map Prod.fst).Nodup

/-- Go `float64` values as far as this code produces them: a finite rational,
the two infinities, or NaN.  `float64` conversions of the integer inputs in
scope are exact, so `Rat` carries the finite values. -/
inductive GoFloat : Type
  | nan : GoFloat
  | negInf : GoFloat
  | finite (q : Rat) : GoFloat
  | posInf : GoFloat
deriving DecidableEq, Repr

/-- IEEE-754 strict less-than on `GoFloat`: every comparison against NaN is
false; `-Inf` is below every non-NaN value except itself; `+Inf` is above. -/
def gflt : GoFloat → GoFloat → Bool
  | GoFloat.nan, _ => false
  | _, GoFloat.nan => false
  | GoFloat.negInf, GoFloat.negInf => false
  | GoFloat.negInf, _ => true
  | _, GoFloat.negInf => false
  | GoFloat.posInf, _ => false
  | GoFloat.finite _, GoFloat.posInf => true
  | GoFloat.finite a, GoFloat.finite b => decide (a < b)

/-- Go's `float64(open) / float64(limit)` for an `int64` numerator and a
`uint64` denominator: ordinary division when `limit ≠ 0`, otherwise the IEEE
zero-division results `±Inf` / NaN. -/
def goDiv (opencnt : Int) (limit : Nat) : GoFloat :=
  if limit ≠ 0 then GoFloat.finite ((opencnt : Rat) / (limit : Rat))
  else if opencnt > 0 then GoFloat.posInf
  else if opencnt < 0 then GoFloat.negInf
  else GoFloat.nan

end PE

namespace OT

/-!
The `proc` package as used by the `Grouper` of `proc/grouper.go`
(`Grouper.curgroups` / `Grouper.Groups`): the `Tracker` version of
`proc/tracker.go` whose `Counts` has six fields and whose per-cycle metric
refresh is the free function `updateProc`.
-/

open PE

/-- `Counts` of proc/tracker.go: the six accumulated counters.  `CpuUser` and
`CpuSystem` are `float64` (modelled as `Rat`); the rest are `uint64`. -/
structure Counts where
  cpuUser : Rat
  cpuSystem : Rat
  readBytes : Nat
  writeBytes : Nat
  majorPageFaults : Nat
  minorPageFaults : Nat
deriving DecidableEq, Repr

/-- The zero value of `Counts` (Go composite literal `Counts{}`). -/
def Counts.zero : Counts := ⟨0, 0, 0, 0, 0, 0⟩

/-- `Counts.Add` of proc/tracker.go: componentwise `+=`, with `uint64`
components wrapping modulo 2^64. -/
def Counts.Add (c c2 : Counts) : Counts :=
  { cpuUser := c.cpuUser + c2.cpuUser
    cpuSystem := c.cpuSystem + c2.cpuSystem
    readBytes := u64add c.readBytes c2.readBytes
    writeBytes := u64add c.writeBytes c2.writeBytes
    majorPageFaults := u64add c.majorPageFaults c2.majorPageFaults
    minorPageFaults := u64add c.minorPageFaults c2.minorPageFaults }

/-- `Memory` of proc/tracker.go. -/
structure Memory where
  resident : Nat
  virt : Nat
deriving DecidableEq, Repr

/-- `Filedesc` of proc/tracker.go: `Open` is `int64` (-1 when unknown),
`Limit` is `uint64`. -/
structure Filedesc where
  openfd : Int
  limit : Nat
deriving DecidableEq, Repr

/-- `ProcMetrics` of proc/read.go: the per-scrape readings.  `ReadBytes`,
`WriteBytes` and `OpenFDs` are `int64` with -1 as the unknown sentinel. -/
structure ProcMetrics where
  cpuUserTime : Rat
  cpuSystemTime : Rat
  readBytes : Int
  writeBytes : Int
  residentBytes : Nat
  virtualBytes : Nat
  openFDs : Int
  maxFDs : Nat
  majorPageFaults : Nat
  minorPageFaults : Nat
deriving DecidableEq, Repr

/-- `ProcStatic` of proc/read.go; `StartTime` (a `time.Time`) is modelled as
a natural timestamp, with 0 the zero time. -/
structure ProcStatic where
  name : String
  cmdline : List String
  parentPid : Int
  startTime : Nat
deriving DecidableEq, Repr

/-- `ProcId` of proc/read.go: pid plus start time in ticks since boot. -/
structure ProcId where
  pid : Int
  startTimeRel : Nat
deriving DecidableEq, Repr

/-- `ProcInfo` of proc/read.go: static data plus latest metrics. -/
structure ProcInfo where
  static : ProcStatic
  metrics : ProcMetrics
deriving DecidableEq, Repr

/-- `ProcIdInfo` of proc/read.go. -/
structure ProcIdInfo where
  procId : ProcId
  static : ProcStatic
  metrics : ProcMetrics
deriving DecidableEq, Repr

/-- `TrackedProc` of proc/tracker.go. -/
structure TrackedProc where
  lastUpdate : Nat
  info : ProcInfo
  accum : Counts
  lastaccum : Counts
  groupName : String
deriving DecidableEq, Repr

/-- `trackedStats` of proc/tracker.go, as returned by `GetStats`. -/
structure trackedStats where
  aggregate : Counts
  latest : Counts
  memory : Memory
  filedesc : Filedesc
  start : Nat
  numThreads : Nat
deriving DecidableEq, Repr

/-- `collectErrors` of proc/tracker.go. -/
structure collectErrors where
  read : Nat
  permission : Nat
deriving DecidableEq, Repr

/-- `TrackedProc.GetStats` of proc/tracker.go.  `NumThreads` of the metrics
record is not part of this `ProcMetrics`; the Go field `info.NumThreads`
promoted from the metrics is modelled as 0 here since no claim reads it
through this version. -/
def TrackedProc.GetStats (tp : TrackedProc) : trackedStats :=
  { aggregate := tp.accum
    latest := tp.lastaccum
    memory := { resident := tp.info.metrics.residentBytes, virt := tp.info.metrics.virtualBytes }
    filedesc := { openfd := tp.info.metrics.openFDs, limit := tp.info.metrics.maxFDs }
    start := tp.info.static.startTime
    numThreads := 0 }

/-- `Tracker` of proc/tracker.go: `Tracked` maps a `ProcId` to a tracked
record or to `none` for a blacklisted (ignored) process; `procIds` maps a
pid to the `ProcId` that currently owns it. -/
structure Tracker where
  tracked : List (ProcId × Option TrackedProc)
  procIds : List (Int × ProcId)
  trackChildren : Bool

/-- `Tracker.Track` of proc/tracker.go: install a fresh entry whose `accum`,
`lastaccum` and `lastUpdate` are zero values. -/
def Tracker.TrackP (t : Tracker) (groupName : String) (idinfo : ProcIdInfo) : Tracker :=
  let tproc : TrackedProc :=
    { lastUpdate := 0
      info := { static := idinfo.static, metrics := idinfo.metrics }
      accum := Counts.zero
      lastaccum := Counts.zero
      groupName := groupName }
  { t with tracked := insertA t.tracked idinfo.procId (some tproc) }

/-- `Tracker.Ignore` of proc/tracker.go: a nil entry is a tombstone. -/
def Tracker.IgnoreP (t : Tracker) (id : ProcId) : Tracker :=
  { t with tracked := insertA t.tracked id none }

/-- `updateProc` of proc/tracker.go (lines 225-249 of the cited version):
the per-cycle refresh of a known tracked process.  The new `Counts` is the
raw componentwise difference of the metric readings: the `float64` CPU
components are plain subtraction, the page-fault components are `uint64`
subtraction (wrapping), and the I/O components are `uint64(int64 - int64)`
(wrapping), taken only when the reading is not the -1 sentinel, which
instead bumps the permission error count. -/
def updateProc (metrics : ProcMetrics) (tproc : TrackedProc) (updateTime : Nat)
    (cerrs : collectErrors) : TrackedProc × collectErrors :=
  let newcounts0 : Counts :=
    { cpuUser := metrics.cpuUserTime - tproc.info.metrics.cpuUserTime
      cpuSystem := metrics.cpuSystemTime - tproc.info.metrics.cpuSystemTime
      readBytes := 0
      writeBytes := 0
      majorPageFaults := u64sub metrics.majorPageFaults tproc.info.metrics.majorPageFaults
      minorPageFaults := u64sub metrics.minorPageFaults tproc.info.metrics.minorPageFaults }
  let (newcounts, cerrs) :=
    if metrics.readBytes = -1 then
      (newcounts0, { cerrs with permission := cerrs.permission + 1 })
    else
      ({ newcounts0 with
          readBytes := i64toU64 (metrics.readBytes - tproc.info.metrics.readBytes)
          writeBytes := i64toU64 (metrics.writeBytes - tproc.info.metrics.writeBytes) }, cerrs)
  ({ tproc with
      accum := tproc.accum.Add newcounts
      info := { tproc.info with metrics := metrics }
      lastUpdate := updateTime
      lastaccum := newcounts }, cerrs)

/-- `GroupCounts` of proc/grouper.go. -/
structure GroupCounts where
  counts : Counts
  procs : Nat
  memresident : Nat
  memvirtual : Nat
  oldestStartTime : Nat
  openFDs : Nat
  worstFDratio : GoFloat
  numThreads : Nat
deriving DecidableEq, Repr

/-- The zero value of `GroupCounts` (what a Go map read returns for an
absent group). -/
def GroupCounts.zero : GroupCounts :=
  { counts := Counts.zero, procs := 0, memresident := 0, memvirtual := 0
    oldestStartTime := 0, openFDs := 0, worstFDratio := GoFloat.finite 0, numThreads := 0 }

/-- The body of `Grouper.curgroups`'s loop for one tracked process: fold its
stats into the group's running `GroupCounts`. -/
def curgroupsStep (cur : GroupCounts) (tstats : trackedStats) : GroupCounts :=
  let cur := { cur with procs := cur.procs + 1 }
  let cur := { cur with memresident := u64add cur.memresident tstats.memory.resident }
  let cur := { cur with memvirtual := u64add cur.memvirtual tstats.memory.virt }
  let cur :=
    if tstats.filedesc.openfd ≠ -1 then
      { cur with openFDs := u64add cur.openFDs (i64toU64 tstats.filedesc.openfd) }
    else cur
  let openratio := goDiv tstats.filedesc.openfd tstats.filedesc.limit
  let cur := if gflt cur.worstFDratio openratio then { cur with worstFDratio := openratio } else cur
  let cur := { cur with numThreads := u64add cur.numThreads tstats.numThreads }
  let cur := { cur with counts := cur.counts.Add tstats.latest }
  let cur :=
    if cur.oldestStartTime = 0 ∨ tstats.start < cur.oldestStartTime then
      { cur with oldestStartTime := tstats.start }
    else cur
  cur

/-- `Grouper` of proc/grouper.go: the accumulated per-group counter floors
plus the tracker it drives. -/
structure Grouper where
  groupStats : List (String × Counts)
  tracker : Tracker

/-- One iteration of `Grouper.curgroups`'s loop over the registry: skip
tombstones, otherwise read the group's running `GroupCounts` (zero value if
absent), fold the process in, and write it back. -/
def curgroupsFold (gcounts : List (String × GroupCounts)) (e : ProcId × Option TrackedProc) :
    List (String × GroupCounts) :=
  match e.2 with
  | none => gcounts
  | some tinfo =>
      let cur := (lookupA gcounts tinfo.groupName).getD GroupCounts.zero
      insertA gcounts tinfo.groupName (curgroupsStep cur tinfo.GetStats)

/-- `Grouper.curgroups` of proc/grouper.go (lines 46-75 of the cited
version): aggregate over the currently tracked (non-tombstone) processes,
building the per-group `GroupCounts` map. -/
def curgroups (g : Grouper) : List (String × GroupCounts) :=
  g.tracker.tracked.foldl curgroupsFold []

/-- The adjustment `Grouper.Groups` applies to an observed group: add the
accumulated floor, when there is one, to the counts just observed. -/
def addFloor (gstats : List (String × Counts)) (gname : String) (group : GroupCounts) :
    GroupCounts :=
  match lookupA gstats gname with
  | some oldcounts => { group with counts := group.counts.Add oldcounts }
  | none => group

/-- One iteration of `Grouper.Groups`'s first loop: write the floored group
back into the report and commit its counts as the new floor. -/
def groupsAddFloor (gstats : List (String × Counts))
    (acc : List (String × GroupCounts) × List (String × Counts)) (e : String × GroupCounts) :
    List (String × GroupCounts) × List (String × Counts) :=
  let group := addFloor gstats e.1 e.2
  (insertA acc.1 e.1 group, insertA acc.2 e.1 group.counts)

/-- One iteration of `Grouper.Groups`'s second loop: a group that has a
stored floor but was not observed this cycle is still reported, carrying
its floor as counts and zero values everywhere else. -/
def groupsAddOld (acc : List (String × GroupCounts)) (e : String × Counts) :
    List (String × GroupCounts) :=
  match lookupA acc e.1 with
  | some _ => acc
  | none => insertA acc e.1 { GroupCounts.zero with counts := e.2 }

/-- `Grouper.Groups` of proc/grouper.go (lines 81-102 of the cited version):
take `curgroups`, add the accumulated floor of every observed group to its
counts and store the sum back as the new floor, then add every group that
has a floor but no current member, reported as bare counts. -/
def Groups (g : Grouper) : List (String × GroupCounts) × Grouper :=
  let groups := curgroups g
  let (groups, stats) := groups.foldl (groupsAddFloor g.groupStats) (groups, g.groupStats)
  let groups := g.groupStats.foldl groupsAddOld groups
  (groups, { g with groupStats := stats })

/-- The live (non-tombstone) tracked processes carrying a given group name,
in registry order: the processes `curgroups` folds into that group. -/
def groupMembers (l : List (ProcId × Option TrackedProc)) (gname : String) :
    List TrackedProc :=
  l.filterMap (fun e =>
    match e.2 with
    | some tp => if tp.groupName = gname then some tp else none
    | none => none)

/-- Fold `curgroupsStep` over a member list (the per-group view of the
`curgroups` loop). -/
def curAgg (ms : List TrackedProc) (start : GroupCounts) : GroupCounts :=
  ms.foldl (fun c tp => curgroupsStep c tp.GetStats) start

/-- Componentwise order on `Counts` (the sense in which published group
counters are claimed not to decrease). -/
def CountsLE (c d : Counts) : Prop :=
  c.cpuUser ≤ d.cpuUser ∧ c.cpuSystem ≤ d.cpuSystem ∧ c.readBytes ≤ d.readBytes ∧
    c.writeBytes ≤ d.writeBytes ∧ c.majorPageFaults ≤ d.majorPageFaults ∧
    c.minorPageFaults ≤ d.minorPageFaults

instance (c d : Counts) : Decidable (CountsLE c d) := by
  unfold CountsLE; infer_instance

/-- Unwrapped sum of one `Nat` counter component of the members' last
deltas (used to state no-overflow side conditions). -/
def sumLatest (ms : List TrackedProc) (f : Counts → Nat) : Nat :=
  (ms.map (fun tp => f tp.lastaccum)).sum

/-- The running `Counts` accumulation of the members' last deltas, exactly
as the `curgroups` loop performs it (wrapping `uint64` addition). -/
def sumDeltas (ms : List TrackedProc) (start : Counts) : Counts :=
  ms.foldl (fun c tp => c.Add tp.GetStats.latest) start

/-- Store the result of `updateProc` back into the registry, as the known-
process branch of the tracker's update cycle does. -/
def applyUpdate (t : Tracker) (id : ProcId) (metrics : ProcMetrics) (now : Nat) : Tracker :=
  match lookupA t.tracked id with
  | some (some tp) =>
      { t with tracked := insertA t.tracked id (some (updateProc metrics tp now ⟨0, 0⟩).1) }
  | _ => t

/-! Concrete scenario data for the counterexamples over this layer. -/

/-- A `ProcMetrics` record with every field zero. -/
def mzero : ProcMetrics := ⟨0, 0, 0, 0, 0, 0, 0, 0, 0, 0⟩

/-- Scrape-1 reading of the pid-1 process: 10 bytes read so far. -/
def m1 : ProcMetrics := { mzero with readBytes := 10 }

/-- Scrape-2 reading: 12 bytes read so far. -/
def m2 : ProcMetrics := { mzero with readBytes := 12 }

/-- Scrape-3 reading: the read-bytes counter has gone backwards to 11. -/
def m3 : ProcMetrics := { mzero with readBytes := 11 }

/-- Identity of the single process in the Grouper scenario. -/
def idA : ProcId := ⟨1, 10⟩

/-- The process as first observed (its scrape-1 snapshot). -/
def infoA : ProcIdInfo := ⟨idA, ⟨"a", ["a"], 0, 5⟩, m1⟩

/-- Tracker state after the process is first tracked under group "g". -/
def t1 : Tracker := Tracker.TrackP ⟨[], [], false⟩ "g" infoA

/-- Grouper before the first report. -/
def g1 : Grouper := ⟨[], t1⟩

/-- First report and resulting Grouper (floor committed). -/
def r1 : List (String × GroupCounts) × Grouper := Groups g1

/-- Grouper before the second report: the tracked process refreshed with the
scrape-2 metrics. -/
def g2 : Grouper := ⟨r1.2.groupStats, applyUpdate t1 idA m2 2⟩

/-- Second report and resulting Grouper. -/
def r2 : List (String × GroupCounts) × Grouper := Groups g2

/-- Grouper before the third report: refreshed with the scrape-3 metrics,
whose read-bytes reading went backwards. -/
def g3 : Grouper := ⟨r2.2.groupStats, applyUpdate g2.tracker idA m3 3⟩

/-- Third report. -/
def r3 : List (String × GroupCounts) × Grouper := Groups g3

/-- A tracked process whose previous readings were cpu-user 2, 5 major
faults, 100 bytes read. -/
def tpOld : TrackedProc :=
  ⟨1, ⟨⟨"a", ["a"], 0, 5⟩, { mzero with cpuUserTime := 2, majorPageFaults := 5, readBytes := 100 }⟩,
    Counts.zero, Counts.zero, "g"⟩

/-- A later reading in which every counter went backwards: cpu-user 1,
3 major faults, 90 bytes read. -/
def newm : ProcMetrics := { mzero with cpuUserTime := 1, majorPageFaults := 3, readBytes := 90 }

/-- A tracked process with 3 open file descriptors and fd limit 0. -/
def tpFD : TrackedProc :=
  ⟨1, ⟨⟨"a", ["a"], 0, 5⟩, { mzero with openFDs := 3, maxFDs := 0 }⟩,
    Counts.zero, Counts.zero, "g"⟩

/-- A Grouper whose only live process is `tpFD`, in group "g". -/
def gFD : Grouper := ⟨[], ⟨[(⟨1, 10⟩, some tpFD)], [], false⟩⟩

/-- The file-descriptor ratio `curgroups` computes for one process:
`float64(open) / float64(limit)`. -/
def tpRatio (tp : TrackedProc) : GoFloat :=
  goDiv tp.GetStats.filedesc.openfd tp.GetStats.filedesc.limit

/-- The running maximum `curgroups` keeps for `WorstFDratio`: replace the
accumulator whenever it compares IEEE-strictly-below the next ratio. -/
def foldmax (rs : List GoFloat) (acc : GoFloat) : GoFloat :=
  rs.foldl (fun w r => if gflt w r then r else w) acc

/-- The file-descriptor ratios of a member list. -/
def ratiosOf (ms : List TrackedProc) : List GoFloat := ms.map tpRatio

/-- The fd limits of a member list. -/
def fdLimits (ms : List TrackedProc) : List Nat :=
  ms.map (fun tp => tp.GetStats.filedesc.limit)

/-- The group record `curgroups` builds for group "g" of `gFD`. -/
def cgcFD : GroupCounts := curAgg [tpFD] GroupCounts.zero

/-- A stored counter floor used in the empty-group scenario. -/
def cFloor : Counts := ⟨1, 2, 3, 4, 5, 6⟩

/-- A Grouper that has history for group "g" but no live member at all. -/
def gEmpty : Grouper := ⟨[("g", cFloor)], ⟨[], [], false⟩⟩

/-- The read-bytes counter a report publishes for a group. -/
def reportReadBytes (rep : List (String × GroupCounts)) (gname : String) : Option Nat :=
  (lookupA rep gname).map (fun gc => gc.counts.readBytes)

end OT

namespace NT

/-!
The later `Tracker` of proc/tracker.go, cited for the tombstone, pid-reuse,
child-inheritance and error-handling claims: ID-keyed registry (`tracked`,
`procIds`), `handleProc`, `update` (scan + retirement), `checkAncestry`
(recursive parent walk) and `Update` (two-pass classification).  The record
types it consumes (`ID`, `Counts`, `Metrics`, `Static`, `Thread`) are
declared in a part of the repository that is not in the tree and are
modelled from the spec's data model.
-/

open PE

/-- Modelled from the spec: `ID` (ProcessKey), `(pid, start_ticks)`; the pid
is a Go `int`, the start time a `uint64` tick count. -/
structure ID where
  pid : Int
  startTimeRel : Nat
deriving DecidableEq, Repr

/-- Modelled from the spec: the eight per-process counters of the data
model (cpu user/system seconds as `float64`, the rest `uint64`). -/
structure Counts where
  cpuUser : Rat
  cpuSystem : Rat
  readBytes : Nat
  writeBytes : Nat
  majorPageFaults : Nat
  minorPageFaults : Nat
  ctxSwitchVoluntary : Nat
  ctxSwitchNonvoluntary : Nat
deriving DecidableEq, Repr

/-- The zero value of `Counts` (Go `Counts{}` / `Delta{}`). -/
def Counts.zero : Counts := ⟨0, 0, 0, 0, 0, 0, 0, 0⟩

/-- Modelled from the spec: `Counts.Sub` is called by `trackedProc.update`
but its definition is not in the tree; the spec specifies the per-cycle
delta as `metrics − last_metrics` componentwise, "clamping any negative
component to 0" (for the unsigned components Lean's truncated `Nat`
subtraction is exactly that clamp). -/
def Counts.Sub (c c2 : Counts) : Counts :=
  { cpuUser := max 0 (c.cpuUser - c2.cpuUser)
    cpuSystem := max 0 (c.cpuSystem - c2.cpuSystem)
    readBytes := c.readBytes - c2.readBytes
    writeBytes := c.writeBytes - c2.writeBytes
    majorPageFaults := c.majorPageFaults - c2.majorPageFaults
    minorPageFaults := c.minorPageFaults - c2.minorPageFaults
    ctxSwitchVoluntary := c.ctxSwitchVoluntary - c2.ctxSwitchVoluntary
    ctxSwitchNonvoluntary := c.ctxSwitchNonvoluntary - c2.ctxSwitchNonvoluntary }

/-- Modelled from the spec: per-process memory gauges. -/
structure Memory where
  resident : Nat
  virt : Nat
  proportionalResident : Nat
  swapped : Nat
  proportionalSwapped : Nat
deriving DecidableEq, Repr

/-- Modelled from the spec: current fd usage/limit; `Open` is -1 when
unknown. -/
structure Filedesc where
  openfd : Int
  limit : Nat
deriving DecidableEq, Repr

/-- Modelled from the spec: the per-scrape metrics record, as consumed by
this `Tracker` (counters, memory, fd, thread count). -/
structure Metrics where
  counts : Counts
  memory : Memory
  filedesc : Filedesc
  numThreads : Nat
deriving DecidableEq, Repr

/-- Modelled from the spec: static per-process attributes consumed by this
`Tracker`; the start time is a natural timestamp. -/
structure Static where
  name : String
  cmdline : List String
  parentPid : Int
  startTime : Nat
deriving DecidableEq, Repr

/-- Modelled from the spec: a per-thread snapshot (`ThreadID` is an `ID`
over the tid). -/
structure Thread where
  threadID : ID
  threadName : String
  counts : Counts
deriving DecidableEq, Repr

/-- `IDInfo`: a new process's identity, static data, metrics and threads. -/
structure IDInfo where
  id : ID
  static : Static
  metrics : Metrics
  threads : List Thread
deriving DecidableEq, Repr

/-- `trackedThread` of proc/tracker.go. -/
structure trackedThread where
  name : String
  accum : Counts
  latest : Counts
  lastUpdate : Nat
deriving DecidableEq, Repr

/-- `trackedProc` of proc/tracker.go (the ID-keyed version). -/
structure trackedProc where
  lastUpdate : Nat
  static : Static
  metrics : Metrics
  lastaccum : Counts
  groupName : String
  threads : List (ID × trackedThread)
deriving DecidableEq, Repr

/-- `ThreadUpdate` of proc/tracker.go. -/
structure ThreadUpdate where
  threadName : String
  latest : Counts
deriving DecidableEq, Repr

/-- `Update` of proc/tracker.go: the per-process report returned by the
tracker. -/
structure UpdateR where
  groupName : String
  latest : Counts
  memory : Memory
  filedesc : Filedesc
  start : Nat
  numThreads : Nat
  threads : List ThreadUpdate
deriving DecidableEq, Repr

/-- `CollectErrors` of proc/tracker.go: `read` counts failed per-process
reads, `softerrs` (the source's second field) counts tolerated per-field
failures. -/
structure CollectErrors where
  read : Nat
  softerrs : Nat
deriving DecidableEq, Repr

/-- Why a per-process read failed: the process is gone
(`ErrProcNotExist`), or anything else. -/
inductive PErr : Type
  | gone : PErr
  | other : PErr
deriving DecidableEq, Repr

/-- A snapshot iterator element: the outcomes of the `Proc` interface calls
the tracker makes on it (`GetProcId`, `GetMetrics` with its soft-error
count, `GetStatic`, `GetThreads`). -/
structure SnapProc where
  getProcID : Except PErr ID
  getMetrics : Except PErr (Metrics × Nat)
  getStatic : Except PErr Static
  getThreads : List Thread

/-- `Tracker` of proc/tracker.go: the namer, the ID-keyed registry
(`none` value = ignored tombstone), the pid-to-ID index, and the two
configuration flags. -/
structure State where
  namer : String → List String → Bool × String
  tracked : List (ID × Option trackedProc)
  procIds : List (Int × ID)
  trackChildren : Bool
  trackThreads : Bool

/-- The fresh entry `Tracker.track` installs: `lastaccum` and `lastUpdate`
keep their zero values, threads are keyed by `ThreadID` when present. -/
def newTrackedProc (groupName : String) (idinfo : IDInfo) : trackedProc :=
  { lastUpdate := 0
    static := idinfo.static
    metrics := idinfo.metrics
    lastaccum := Counts.zero
    groupName := groupName
    threads :=
      if idinfo.threads.length > 0 then
        idinfo.threads.foldl
          (fun m thr => insertA m thr.threadID ⟨thr.threadName, thr.counts, Counts.zero, 0⟩) []
      else [] }

/-- `Tracker.track`: install a fresh entry for the process. -/
def track (t : State) (groupName : String) (idinfo : IDInfo) : State :=
  { t with tracked := insertA t.tracked idinfo.id (some (newTrackedProc groupName idinfo)) }

/-- `Tracker.ignore`: a nil map value is the tombstone. -/
def ignore (t : State) (id : ID) : State :=
  { t with tracked := insertA t.tracked id none }

/-- `trackedProc.update` of proc/tracker.go: refresh the entry with the new
metrics, record the delta via `Counts.Sub`, stamp `lastUpdate`, and redo the
thread sub-entries (only when more than one thread), dropping thread entries
not re-observed in this cycle. -/
def tpUpdate (tp : trackedProc) (metrics : Metrics) (now : Nat) (threads : List Thread) :
    trackedProc :=
  let newcounts := metrics.counts
  let tp := { tp with
    lastaccum := newcounts.Sub tp.metrics.counts
    metrics := metrics
    lastUpdate := now }
  if threads.length > 1 then
    let thmap := threads.foldl
      (fun m thr =>
        let tt0 : trackedThread := ⟨thr.threadName, thr.counts, Counts.zero, now⟩
        let tt := match lookupA m thr.threadID with
          | some old => { tt0 with latest := thr.counts.Sub old.accum, accum := thr.counts }
          | none => tt0
        insertA m thr.threadID tt)
      tp.threads
    { tp with threads := thmap.filter (fun e => e.2.lastUpdate = now) }
  else { tp with threads := [] }

/-- `trackedProc.getUpdate` of proc/tracker.go. -/
def getUpdate (tp : trackedProc) : UpdateR :=
  { groupName := tp.groupName
    latest := tp.lastaccum
    memory := tp.metrics.memory
    filedesc := tp.metrics.filedesc
    start := tp.static.startTime
    numThreads := tp.metrics.numThreads
    threads :=
      if tp.threads.length > 1 then tp.threads.map (fun e => ⟨e.2.name, e.2.latest⟩)
      else [] }

/-- `Tracker.handleProc` of proc/tracker.go: skip ignored keys; a metrics
read failure other than process-gone counts one read error; a known entry is
refreshed in place; an unknown process has its static data read, any stale
same-pid entry deleted, and is returned as new. -/
def handleProc (t : State) (p : SnapProc) (updateTime : Nat) :
    Option IDInfo × CollectErrors × State :=
  match p.getProcID with
  | Except.error _ => (none, ⟨0, 0⟩, t)
  | Except.ok procID =>
    if lookupA t.tracked procID = some none then (none, ⟨0, 0⟩, t)
    else
      match p.getMetrics with
      | Except.error e => (none, ⟨if e = PErr.gone then 0 else 1, 0⟩, t)
      | Except.ok (metrics, softerrors) =>
        let threads := if t.trackThreads then p.getThreads else []
        match lookupA t.tracked procID with
        | some (some last) =>
            let t2 :=
              { t with tracked :=
                  insertA t.tracked procID (some (tpUpdate last metrics updateTime threads)) }
            (none, ⟨0, softerrors⟩, t2)
        | _ =>
            match p.getStatic with
            | Except.error _ => (none, ⟨0, softerrors⟩, t)
            | Except.ok static =>
              let newProc : IDInfo := ⟨procID, static, metrics, threads⟩
              let t2 := match lookupA t.procIds procID.pid with
                | some oldProcID => { t with tracked := eraseA t.tracked oldProcID }
                | none => t
              let t3 := { t2 with procIds := insertA t2.procIds procID.pid procID }
              (some newProc, ⟨0, softerrors⟩, t3)

/-- The end-of-cycle retirement loop of `Tracker.update`: entries whose
`lastUpdate` was not bumped this cycle are deleted along with their
`procIds` index entry; nil (tombstone) entries are skipped (`continue`). -/
def cleanup (t : State) (now : Nat) : State :=
  let stale := t.tracked.filter (fun e =>
    match e.2 with
    | some tp => decide (tp.lastUpdate ≠ now)
    | none => false)
  { t with
    tracked := t.tracked.filter (fun e =>
      match e.2 with
      | some tp => decide (tp.lastUpdate = now)
      | none => true)
    procIds := stale.foldl (fun m e => eraseA m e.1.pid) t.procIds }

/-- One iteration of `Tracker.update`'s scan: handle the next snapshot
process, collecting any new process and accumulating error counts. -/
def updateFoldStep (now : Nat) (acc : List IDInfo × CollectErrors × State) (p : SnapProc) :
    List IDInfo × CollectErrors × State :=
  let h := handleProc acc.2.2 p now
  (match h.1 with
   | some np => acc.1 ++ [np]
   | none => acc.1,
   ⟨acc.2.1.read + h.2.1.read, acc.2.1.softerrs + h.2.1.softerrs⟩, h.2.2)

/-- `Tracker.update` of proc/tracker.go: scan the snapshot accumulating new
processes and error counts, then retire the entries that were not
re-observed. -/
def updatePhase (t : State) (procs : List SnapProc) (now : Nat) :
    List IDInfo × CollectErrors × State :=
  let r := procs.foldl (updateFoldStep now) ([], ⟨0, 0⟩, t)
  (r.1, r.2.1, cleanup r.2.2 now)

/-- `Tracker.checkAncestry` of proc/tracker.go, with an explicit fuel
parameter standing for the recursion depth Go would consume on the stack:
walk to the parent via `procIds` (zero value when absent), ignore at the
root, adopt a tracked parent's group, ignore under an ignored parent,
recurse through a parent that is itself a new process, and ignore when the
parent is unknown.  `none` means the fuel ran out, i.e. the Go recursion
would still be running at that depth. -/
def checkAncestryF : Nat → State → IDInfo → List (ID × IDInfo) → Option (String × State)
  | 0, _, _, _ => none
  | Nat.succ fuel, t, idinfo, newprocs =>
    let pProcID := (lookupA t.procIds idinfo.static.parentPid).getD ⟨0, 0⟩
    if pProcID.pid < 1 then some ("", ignore t idinfo.id)
    else
      match lookupA t.tracked pProcID with
      | some (some ptproc) => some (ptproc.groupName, track t ptproc.groupName idinfo)
      | some none => some ("", ignore t idinfo.id)
      | none =>
        match lookupA newprocs pProcID with
        | some pinfoid =>
          match checkAncestryF fuel t pinfoid newprocs with
          | none => none
          | some (name, t2) =>
            if name ≠ "" then some (name, track t2 name idinfo)
            else some ("", ignore t2 idinfo.id)
        | none => some ("", ignore t idinfo.id)

/-- Step 1 of `Tracker.Update`: consult the namer for every new process;
track the matched ones, collect the rest as the `untracked` map. -/
def step1 (t : State) (newProcs : List IDInfo) : State × List (ID × IDInfo) :=
  newProcs.foldl
    (fun (acc : State × List (ID × IDInfo)) idinfo =>
      let r := acc.1.namer idinfo.static.name idinfo.static.cmdline
      if r.1 then (track acc.1 r.2 idinfo, acc.2)
      else (acc.1, insertA acc.2 idinfo.id idinfo))
    (t, [])

/-- One iteration of `Tracker.Update`'s second pass: skip processes an
earlier walk already decided, otherwise run `checkAncestry` against the
full untracked map `U`. -/
def step2Fold (fuel : Nat) (U : List (ID × IDInfo)) (acc : Option State) (e : ID × IDInfo) :
    Option State :=
  match acc with
  | none => none
  | some t2 =>
    match lookupA t2.tracked e.1 with
    | some _ => some t2
    | none =>
      match checkAncestryF fuel t2 e.2 U with
      | none => none
      | some r => some r.2

/-- Step 2 of `Tracker.Update`: walk every untracked new process's ancestry
unless an earlier iteration already decided it.  Returns `none` when some
walk exhausts its fuel (the Go recursion would not have returned). -/
def step2F (fuel : Nat) (t : State) (untracked : List (ID × IDInfo)) : Option State :=
  untracked.foldl (step2Fold fuel untracked) (some t)

/-- The report `Tracker.Update` assembles at the end: one `Update` per live
tracked entry. -/
def collectUpdates (t : State) : List UpdateR :=
  t.tracked.foldl
    (fun acc e =>
      match e.2 with
      | some tproc => acc ++ [getUpdate tproc]
      | none => acc)
    []

/-- `Tracker.Update` of proc/tracker.go: scan-and-retire, classify new
processes by the namer, then (when `trackChildren`) the ancestry pass, and
finally report every live entry. -/
def UpdateF (fuel : Nat) (t : State) (procs : List SnapProc) (now : Nat) :
    Option (CollectErrors × List UpdateR × State) :=
  let r1 := updatePhase t procs now
  let r2 := step1 r1.2.2 r1.1
  match (if r2.1.trackChildren then step2F fuel r2.1 r2.2 else some r2.1) with
  | none => none
  | some t3 => some (r1.2.1, collectUpdates t3, t3)

/-- The parent key a `checkAncestry` hop resolves: the `procIds` entry for
the process's parent pid, or the zero `ID` when there is none. -/
def parentIDOf (t : State) (idinfo : IDInfo) : ID :=
  (lookupA t.procIds idinfo.static.parentPid).getD ⟨0, 0⟩

/-- The pid index is consistent: every `procIds` entry maps a pid to an
`ID` carrying that pid.  `handleProc` establishes this for every entry it
writes. -/
def WFpids (t : State) : Prop :=
  ∀ pid id2, lookupA t.procIds pid = some id2 → id2.pid = pid

/-- What one full parent-chain walk over a fixed tracker state decides for a
process: `""` when the chain reaches the root, an ignored parent or a
missing parent; a tracked ancestor's group name otherwise, hopping through
parents that are themselves untracked new processes. -/
inductive ChainVerdict (t : State) (U : List (ID × IDInfo)) : IDInfo → String → Prop
  | root (info : IDInfo) :
      (parentIDOf t info).pid < 1 → ChainVerdict t U info ""
  | trackedPar (info : IDInfo) (tp : trackedProc) :
      ¬ (parentIDOf t info).pid < 1 →
      lookupA t.tracked (parentIDOf t info) = some (some tp) →
      ChainVerdict t U info tp.groupName
  | ignoredPar (info : IDInfo) :
      ¬ (parentIDOf t info).pid < 1 →
      lookupA t.tracked (parentIDOf t info) = some none →
      ChainVerdict t U info ""
  | newPar (info pinfo : IDInfo) (s : String) :
      ¬ (parentIDOf t info).pid < 1 →
      lookupA t.tracked (parentIDOf t info) = none →
      lookupA U (parentIDOf t info) = some pinfo →
      ChainVerdict t U pinfo s →
      ChainVerdict t U info s
  | deadPar (info : IDInfo) :
      ¬ (parentIDOf t info).pid < 1 →
      lookupA t.tracked (parentIDOf t info) = none →
      lookupA U (parentIDOf t info) = none →
      ChainVerdict t U info ""

/-- Every live tracked entry carries a non-empty group name (what the spec
guarantees of selector output: "GroupName = non-empty text"). -/
def HneTracked (t : State) : Prop :=
  ∀ id tp, lookupA t.tracked id = some (some tp) → tp.groupName ≠ ""

/-- A registry value for an untracked new process agrees with the chain
verdict: a tombstone for verdict `""`, a tracked entry under the verdict's
(non-empty) group name otherwise. -/
def VMatch (t1 : State) (U : List (ID × IDInfo)) (inf : IDInfo) : Option trackedProc → Prop
  | none => ChainVerdict t1 U inf ""
  | some tp => tp.groupName ≠ "" ∧ ChainVerdict t1 U inf tp.groupName

/-- The invariant the ancestry pass maintains over the pre-pass state `t1`:
the pid index is untouched, every pre-pass registry entry survives
unchanged, and every other entry belongs to an untracked new process and
agrees with its chain verdict over `t1`. -/
def Inv (t1 : State) (U : List (ID × IDInfo)) (S : State) : Prop :=
  S.procIds = t1.procIds ∧
  (∀ id v, lookupA t1.tracked id = some v → lookupA S.tracked id = some v) ∧
  (∀ id v, lookupA S.tracked id = some v →
    lookupA t1.tracked id = some v ∨
    (lookupA t1.tracked id = none ∧ ∃ inf, lookupA U id = some inf ∧ VMatch t1 U inf v))

/-! Concrete scenario data for the claims over this tracker. -/

/-- A namer that tracks every process under its comm name. -/
def namerAll : String → List String → Bool × String := fun nm _ => (true, nm)

/-- A namer that matches nothing. -/
def namerNone : String → List String → Bool × String := fun _ _ => (false, "")

/-- A namer that tracks exactly the processes with the given comm. -/
def namerOnly (s : String) : String → List String → Bool × String :=
  fun nm _ => (nm == s, nm)

/-- A metrics record with all-zero counters, one thread. -/
def metA : Metrics := ⟨Counts.zero, ⟨0, 0, 0, 0, 0⟩, ⟨0, 0⟩, 1⟩

/-- A later metrics record with nonzero counters. -/
def metB : Metrics := ⟨⟨5, 0, 10, 0, 0, 0, 0, 0⟩, ⟨0, 0, 0, 0, 0⟩, ⟨2, 10⟩, 1⟩

/-- Static data for the first life of pid 7 (start ticks 100). -/
def statA : Static := ⟨"app", ["app"], 1, 100⟩

/-- Static data for the second life of pid 7 (start ticks 200). -/
def statB : Static := ⟨"app", ["app"], 1, 200⟩

/-- Key of the first life of pid 7. -/
def K1 : ID := ⟨7, 100⟩

/-- Key of the second life of pid 7: same pid, different start time. -/
def K2 : ID := ⟨7, 200⟩

/-- The tracked entry for the first life of pid 7. -/
def tpA : trackedProc := ⟨1, statA, metA, Counts.zero, "app", []⟩

/-- Tracker state holding the first life of pid 7. -/
def stateC3 : State := ⟨namerAll, [(K1, some tpA)], [(7, K1)], false, false⟩

/-- The snapshot appearance of pid 7's second life. -/
def pC3 : SnapProc := ⟨Except.ok K2, Except.ok (metB, 0), Except.ok statB, []⟩

/-- An ignored (tombstoned) key. -/
def K5 : ID := ⟨5, 50⟩

/-- Tracker state holding only the tombstone for `K5`. -/
def stateC5 : State := ⟨namerAll, [(K5, none)], [(5, K5)], false, false⟩

/-- One Update cycle over an empty snapshot: `K5` is not produced. -/
def c5res : Option (CollectErrors × List UpdateR × State) := UpdateF 1 stateC5 [] 1

/-- Whether the tombstone survived that cycle. -/
def c5tombstone : Option (Option (Option trackedProc)) :=
  c5res.map (fun r => lookupA r.2.2.tracked K5)

/-- The result the tombstone-only cycle computes. -/
def c5r : CollectErrors × List UpdateR × State := (⟨0, 0⟩, [], stateC5)

/-- Key of the tracked process whose read will fail. -/
def K10 : ID := ⟨9, 30⟩

/-- Its tracked entry, last updated at time 1. -/
def tpK : trackedProc := ⟨1, statA, metA, Counts.zero, "gx", []⟩

/-- Tracker state holding that entry. -/
def stateC10 : State := ⟨namerAll, [(K10, some tpK)], [(9, K10)], false, false⟩

/-- The process appears in the snapshot but its metrics read fails for a
reason other than the process being gone. -/
def pFail : SnapProc := ⟨Except.ok K10, Except.error PErr.other, Except.ok statA, []⟩

/-- One Update cycle at time 2 over that snapshot. -/
def c10res : Option (CollectErrors × List UpdateR × State) := UpdateF 1 stateC10 [pFail] 2

/-- The read-error count of that cycle. -/
def c10read : Option Nat := c10res.map (fun r => r.1.read)

/-- What the registry holds for `K10` after that cycle. -/
def c10entry : Option (Option (Option trackedProc)) :=
  c10res.map (fun r => lookupA r.2.2.tracked K10)

/-- The updates emitted by that cycle. -/
def c10ups : Option (List UpdateR) := c10res.map (fun r => r.2.1)

/-- A new process, pid 10, whose parent pid is 11. -/
def cycA : SnapProc := ⟨Except.ok ⟨10, 1⟩, Except.ok (metA, 0), Except.ok ⟨"a", ["a"], 11, 1⟩, []⟩

/-- A new process, pid 11, whose parent pid is 10: a parent cycle. -/
def cycB : SnapProc := ⟨Except.ok ⟨11, 1⟩, Except.ok (metA, 0), Except.ok ⟨"b", ["b"], 10, 1⟩, []⟩

/-- An empty tracker with child tracking on and a namer matching nothing. -/
def stateC6 : State := ⟨namerNone, [], [], true, false⟩

/-- One Update cycle over the two-process parent cycle, with the given
recursion fuel. -/
def c6res (fuel : Nat) : Option (CollectErrors × List UpdateR × State) :=
  UpdateF fuel stateC6 [cycA, cycB] 1

/-- An empty tracker with child tracking on, tracking comm "parent-bin". -/
def s4init : State := ⟨namerOnly "parent-bin", [], [], true, false⟩

/-- pid 10, comm "parent-bin", child of init (pid 1). -/
def pr10 : SnapProc :=
  ⟨Except.ok ⟨10, 3⟩, Except.ok (metA, 0), Except.ok ⟨"parent-bin", ["parent-bin"], 1, 3⟩, []⟩

/-- pid 11, comm "helper", child of pid 10; matched by no rule. -/
def pr11 : SnapProc :=
  ⟨Except.ok ⟨11, 4⟩, Except.ok (metA, 0), Except.ok ⟨"helper", ["helper"], 10, 4⟩, []⟩

/-- One Update cycle over the parent/child snapshot. -/
def c4res : Option (CollectErrors × List UpdateR × State) := UpdateF 3 s4init [pr10, pr11] 1

/-- A state whose registry tracks pid 10 and whose pid index knows it. -/
def tW : State :=
  ⟨namerOnly "parent-bin", [(⟨10, 3⟩, some ⟨1, ⟨"parent-bin", ["parent-bin"], 1, 3⟩, metA,
    Counts.zero, "parent-bin", []⟩)], [(10, ⟨10, 3⟩)], true, false⟩

/-- The one-entry untracked map for the termination witness. -/
def infoW : IDInfo := ⟨⟨11, 4⟩, ⟨"helper", ["helper"], 10, 4⟩, metA, []⟩

/-- The untracked map holding only `infoW`. -/
def UW : List (ID × IDInfo) := [(⟨11, 4⟩, infoW)]

/-- The classification-phase entry for pid 10: tracked under "parent-bin"
with zero accumulator. -/
def tp10c : trackedProc :=
  ⟨0, ⟨"parent-bin", ["parent-bin"], 1, 3⟩, metA, Counts.zero, "parent-bin", []⟩

/-- The state after scan and classification of the parent/child snapshot:
pid 10 tracked, both pids indexed. -/
def t1c : State :=
  ⟨namerOnly "parent-bin", [(⟨10, 3⟩, some tp10c)],
    [(11, ⟨11, 4⟩), (10, ⟨10, 3⟩)], true, false⟩

/-- The state after the ancestry pass: pid 11 adopted into "parent-bin". -/
def t3c : State :=
  ⟨namerOnly "parent-bin",
    [(⟨11, 4⟩, some (newTrackedProc "parent-bin" infoW)), (⟨10, 3⟩, some tp10c)],
    [(11, ⟨11, 4⟩), (10, ⟨10, 3⟩)], true, false⟩

/-- The full result of the parent/child Update cycle. -/
def c4r : CollectErrors × List UpdateR × State := (⟨0, 0⟩, collectUpdates t3c, t3c)

end NT

namespace RD

open PE OT

/-- `userHZ` of proc/read.go. -/
def userHZ : Nat := 100

/-- Go's `int64(x)` on a `uint64` reading: values at or above `2^63`
reinterpret as negative. -/
def u64toI64 (n : Nat) : Int := if n < 2 ^ 63 then (n : Int) else (n : Int) - (W : Int)

/-- The stat fields `proc.GetMetrics` consumes. -/
structure RawStat where
  utime : Nat
  stime : Nat
  residentMemory : Nat
  virtualMemory : Nat
  majFlt : Nat
  minFlt : Nat
deriving DecidableEq, Repr

/-- How a stat read can fail: `os.ErrNotExist` or anything else. -/
inductive RdStatErr
  | notExist
  | other
deriving DecidableEq, Repr

/-- The error `GetMetrics` returns: `ErrProcNotExist` after the
`os.ErrNotExist` remap, or the original error. -/
inductive RdFail
  | procNotExist
  | other
deriving DecidableEq, Repr

/-- The underlying procfs reads `proc.GetMetrics` performs, each fallible:
`GetIo` (read/write byte counters), `GetStat`, `FileDescriptorsLen`, and
`NewLimits` (the open-files limit, `-1` meaning unlimited). -/
structure RawProc where
  io : Except Unit (Nat × Nat)
  stat : Except RdStatErr RawStat
  numFds : Except Unit Nat
  limits : Except RdFail Int
deriving Repr

/-- `proc.GetMetrics` of proc/read.go (lines 332-369): an IO-counter
failure is tolerated with `-1` sentinels, a stat failure fails the read
(with `os.ErrNotExist` remapped to `ErrProcNotExist`), an fd-count failure
is tolerated with `numfds = -1`, and a limits failure fails the read. -/
def GetMetrics (p : RawProc) : Except RdFail ProcMetrics :=
  let rbwb : Int × Int :=
    match p.io with
    | Except.ok io => (u64toI64 io.1, u64toI64 io.2)
    | Except.error _ => (-1, -1)
  match p.stat with
  | Except.error e =>
      Except.error
        (match e with
         | RdStatErr.notExist => RdFail.procNotExist
         | RdStatErr.other => RdFail.other)
  | Except.ok stat =>
    let numfds : Int :=
      match p.numFds with
      | Except.ok n => (n : Int)
      | Except.error _ => -1
    match p.limits with
    | Except.error e => Except.error e
    | Except.ok openFiles =>
      Except.ok
        { cpuUserTime := (stat.utime : Rat) / (userHZ : Rat)
          cpuSystemTime := (stat.stime : Rat) / (userHZ : Rat)
          readBytes := rbwb.1
          writeBytes := rbwb.2
          residentBytes := stat.residentMemory
          virtualBytes := stat.virtualMemory
          openFDs := numfds
          maxFDs := i64toU64 openFiles
          majorPageFaults := stat.majFlt
          minorPageFaults := stat.minFlt }

/-- A raw proc whose IO counters and fd count are unreadable but whose stat
and limits reads succeed. -/
def pSoft : RawProc :=
  ⟨Except.error (), Except.ok ⟨1, 2, 3, 4, 5, 6⟩, Except.error (), Except.ok 1024⟩

end RD

namespace CLI

open PE

/-- `prefixRegex` of cmd/process-exporter/main.go: the group-name prefix
(`name + ":"`) and the compiled regex, modelled by its
`FindStringSubmatch` behaviour: the whole match at index 0 followed by the
capture groups, or `[]` when the regex does not match. -/
structure PrefixRegex where
  pfx : String
  find : String → List String

/-- The `(name, regex)` pairs among the comma-split `-namemapper` tokens:
element `i` pairs with element `i-1` for odd `i`. -/
def pairsOf : List String → List (String × String)
  | [] => []
  | [_] => []
  | a :: b :: rest => (a, b) :: pairsOf rest

/-- The mapping-building loop of `parseNameMapper`: compile each pair's
regex (abort on a compile error) and store it under the name with prefix
`name + ":"`; a later pair for the same name overwrites an earlier one. -/
def buildMapper (compile : String → Option (String → List String)) :
    List (String × String) → List (String × Option PrefixRegex) →
    Option (List (String × Option PrefixRegex))
  | [], m => some m
  | (name, regexstr) :: rest, m =>
    match compile regexstr with
    | none => none
    | some f => buildMapper compile rest (insertA m name (some ⟨name ++ ":", f⟩))

/-- `parseNameMapper` of cmd/process-exporter/main.go (lines 525-554) over
the already comma-split token list (`strings.Split` applied), with the
regex engine abstracted as `compile`: empty argument gives the empty
mapper, an odd token count or an empty token is an error. -/
def parseNameMapper (compile : String → Option (String → List String))
    (toks : List String) : Option (List (String × Option PrefixRegex)) :=
  if toks = [] then some []
  else if toks.length % 2 = 1 then none
  else if toks.any (fun t => t = "") then none
  else buildMapper compile (pairsOf toks) []

/-- The `-procnames` loop of `main()`: every non-empty listed name missing
from the mapping gets a nil entry. -/
def addProcnames (names : List String) (m : List (String × Option PrefixRegex)) :
    List (String × Option PrefixRegex) :=
  names.foldl
    (fun m s =>
      if s = "" then m
      else
        match lookupA m s with
        | some _ => m
        | none => insertA m s none)
    m

/-- `nameMapperRegex.MatchAndName` of cmd/process-exporter/main.go (lines
556-571): a nil mapping entry matches under the bare name; a regex entry
scans `FindStringSubmatch` of the space-joined cmdline for the first
non-empty capture and matches under `prefix + capture`; everything else —
including a regex entry with no match or no non-empty capture — yields
`(false, "")`. -/
def MatchAndName (m : List (String × Option PrefixRegex)) (name : String)
    (cmdline : List String) : Bool × String :=
  match lookupA m name with
  | some none => (true, name)
  | some (some pregex) =>
    let ms := pregex.find (String.intercalate " " cmdline)
    if ms.length > 1 then
      match (ms.drop 1).find? (fun c => decide (c ≠ "")) with
      | some cap => (true, pregex.pfx ++ cap)
      | none => (false, "")
    else (false, "")
  | none => (false, "")

/-- The first non-empty capture the regex entry produces on the
space-joined cmdline, if any (`FindStringSubmatch` result longer than 1
and holding a non-empty group). -/
def firstCap (pregex : PrefixRegex) (cmdline : List String) : Option String :=
  let ms := pregex.find (String.intercalate " " cmdline)
  if ms.length > 1 then (ms.drop 1).find? (fun c => decide (c ≠ ""))
  else none

/-- A regex engine whose patterns compile but never match. -/
def compileNoCap : String → Option (String → List String) :=
  fun _ => some (fun _ => [])

/-- The back-compat mapping for `-namemapper myapp,pat -procnames myapp`
under the never-matching engine. -/
def c8map : List (String × Option PrefixRegex) :=
  match parseNameMapper compileNoCap ["myapp", "pat"] with
  | some m => addProcnames ["myapp"] m
  | none => []

/-- A mapping holding only a nil (regex-free) entry for "myapp". -/
def c8mapNil : List (String × Option PrefixRegex) := [("myapp", none)]

end CLI

/-! ## Theorems -/

namespace PE

theorem lookupA_eraseA {κ β : Type} [DecidableEq κ] (m : List (κ × β)) (k k0 : κ) :
    k0 ≠ k → lookupA (eraseA m k) k0 = lookupA m k0 := by
  intro h
  induction m with
  | nil => simp [eraseA, lookupA]
  | cons e rest ih =>
    by_cases hk : e.1 = k
    · have hne : k0 ≠ e.1 := fun he => h (he.trans hk)
      rw [show lookupA (e :: rest) k0 = lookupA rest k0 by simp [lookupA, hne], ← ih]
      simp [eraseA, hk]
    · by_cases h0 : k0 = e.1
      · simp [eraseA, lookupA, hk, h0]
      · rw [show lookupA (e :: rest) k0 = lookupA rest k0 by simp [lookupA, h0], ← ih]
        simp [eraseA, lookupA, hk, h0]

theorem lookupA_eraseA_self {κ β : Type} [DecidableEq κ] (m : List (κ × β)) (k : κ) :
    lookupA (eraseA m k) k = none := by
  induction m with
  | nil => simp [eraseA, lookupA]
  | cons e rest ih =>
    by_cases hk : e.1 = k
    · simpa [eraseA, lookupA, hk] using ih
    · rw [← ih]
      simp [eraseA, lookupA, hk, Ne.symm hk]

theorem lookupA_insertA {κ β : Type} [DecidableEq κ] (m : List (κ × β)) (k k0 : κ) (v : β) :
    lookupA (insertA m k v) k0 = if k0 = k then some v else lookupA m k0 := by
  by_cases h : k0 = k
  · simp [insertA, lookupA, h]
  · simp only [insertA, lookupA, h, if_false]
    exact lookupA_eraseA m k k0 h
theorem lookupA_eq_none_of_not_mem {κ β : Type} [DecidableEq κ] (l : List (κ × β)) (k : κ)
    (h : k ∉ l.map Prod.fst) : lookupA l k = none := by
  induction l with
  | nil => rfl
  | cons e rest ih =>
    simp only [List.map_cons, List.mem_cons] at h
    push_neg at h
    simp only [lookupA, if_neg h.1]
    exact ih h.2

theorem nodupKeys_eraseA {κ β : Type} [DecidableEq κ] (m : List (κ × β)) (k : κ)
    (h : NodupKeys m) : NodupKeys (eraseA m k) :=
  List.Nodup.sublist (List.Sublist.map Prod.fst (List.filter_sublist m)) h

theorem not_mem_keys_eraseA {κ β : Type} [DecidableEq κ] (m : List (κ × β)) (k : κ) :
    k ∉ (eraseA m k).map Prod.fst := by
  intro hk
  rcases List.mem_map.mp hk with ⟨e, he, hfst⟩
  have := List.of_mem_filter he
  simp only [decide_eq_true_eq] at this
  exact this hfst

theorem nodupKeys_insertA {κ β : Type} [DecidableEq κ] (m : List (κ × β)) (k : κ) (v : β)
    (h : NodupKeys m) : NodupKeys (insertA m k v) := by
  unfold NodupKeys insertA
  rw [List.map_cons]
  exact List.Nodup.cons (not_mem_keys_eraseA m k) (nodupKeys_eraseA m k h)

theorem lookupA_mem {κ β : Type} [DecidableEq κ] (l : List (κ × β)) (k : κ) (v : β)
    (h : lookupA l k = some v) : (k, v) ∈ l := by
  induction l with
  | nil => cases h
  | cons e rest ih =>
    by_cases hk : k = e.1
    · simp only [lookupA, if_pos hk] at h
      injection h with hv
      subst hv
      subst hk
      rw [Prod.mk.eta]
      exact List.mem_cons_self e rest
    · simp only [lookupA, if_neg hk] at h
      exact List.mem_cons_of_mem e (ih h)

theorem lookupA_filter_of_lookupA {κ β : Type} [DecidableEq κ] (l : List (κ × β)) (k : κ)
    (v : β) (pred : κ × β → Bool) (h : lookupA l k = some v) (hnd : NodupKeys l) :
    lookupA (l.filter pred) k = if pred (k, v) then some v else none := by
  induction l with
  | nil => cases h
  | cons e rest ih =>
    have hnd2 : NodupKeys rest := by
      unfold NodupKeys at hnd ⊢
      rw [List.map_cons, List.nodup_cons] at hnd
      exact hnd.2
    have hem : e.1 ∉ rest.map Prod.fst := by
      unfold NodupKeys at hnd
      rw [List.map_cons, List.nodup_cons] at hnd
      exact hnd.1
    by_cases hk : k = e.1
    · simp only [lookupA, if_pos hk] at h
      injection h with hv
      subst hv
      subst hk
      rw [Prod.mk.eta]
      cases hpe : pred e with
      | true =>
        rw [List.filter_cons_of_pos hpe]
        simp [lookupA]
      | false =>
        rw [List.filter_cons_of_neg (by simp [hpe])]
        rw [show (if (false : Bool) = true then some e.2 else none) = none from rfl]
        apply lookupA_eq_none_of_not_mem
        intro hmem
        apply hem
        exact List.Sublist.subset
          (List.Sublist.map Prod.fst (List.filter_sublist rest)) hmem
    · simp only [lookupA, if_neg hk] at h
      cases hpe : pred e with
      | true =>
        rw [List.filter_cons_of_pos hpe]
        simp only [lookupA, if_neg hk]
        exact ih h hnd2
      | false =>
        rw [List.filter_cons_of_neg (by simp [hpe])]
        exact ih h hnd2

theorem nodupKeys_filter {κ β : Type} [DecidableEq κ] (l : List (κ × β))
    (pred : κ × β → Bool) (h : NodupKeys l) : NodupKeys (l.filter pred) :=
  List.Nodup.sublist (List.Sublist.map Prod.fst (List.filter_sublist l)) h

theorem u64sub_of_lt {a b : Nat} (hab : a < b) (hb : b < W) :
    u64sub a b = W - (b - a) ∧ 0 < u64sub a b := by
  have hW : W = 2 ^ 64 := rfl
  unfold u64sub
  rw [hW] at hb ⊢
  rw [Nat.mod_eq_of_lt hb, Nat.mod_eq_of_lt (by omega)]
  omega

theorem i64toU64_of_neg {x : Int} (hx : x < 0) (hW : -(W : Int) < x) :
    i64toU64 x = ((W : Int) + x).toNat ∧ 0 < i64toU64 x := by
  have h : (W : Int) = 2 ^ 64 := by norm_num [W]
  unfold i64toU64
  rw [h] at hW ⊢
  omega

end PE

namespace OT

open PE

theorem updateProc_lastaccum_io (metrics : ProcMetrics) (tproc : TrackedProc) (now : Nat)
    (cerrs : collectErrors) (h : ¬ metrics.readBytes = -1) :
    (updateProc metrics tproc now cerrs).1.lastaccum =
      { cpuUser := metrics.cpuUserTime - tproc.info.metrics.cpuUserTime
        cpuSystem := metrics.cpuSystemTime - tproc.info.metrics.cpuSystemTime
        readBytes := i64toU64 (metrics.readBytes - tproc.info.metrics.readBytes)
        writeBytes := i64toU64 (metrics.writeBytes - tproc.info.metrics.writeBytes)
        majorPageFaults := u64sub metrics.majorPageFaults tproc.info.metrics.majorPageFaults
        minorPageFaults := u64sub metrics.minorPageFaults tproc.info.metrics.minorPageFaults } := by
  simp [updateProc, h]

theorem updateProc_lastaccum_noio (metrics : ProcMetrics) (tproc : TrackedProc) (now : Nat)
    (cerrs : collectErrors) (h : metrics.readBytes = -1) :
    (updateProc metrics tproc now cerrs).1.lastaccum =
      { cpuUser := metrics.cpuUserTime - tproc.info.metrics.cpuUserTime
        cpuSystem := metrics.cpuSystemTime - tproc.info.metrics.cpuSystemTime
        readBytes := 0
        writeBytes := 0
        majorPageFaults := u64sub metrics.majorPageFaults tproc.info.metrics.majorPageFaults
        minorPageFaults := u64sub metrics.minorPageFaults tproc.info.metrics.minorPageFaults } := by
  simp [updateProc, h]

/-- C2: the claim asserts that each component of the per-process delta for a
scrape interval is ≥ 0 with negative raw differences clamped to 0.  The
cited `updateProc` of proc/tracker.go performs no clamping: here its
previous cpu-user reading 2 drops to 1 and the emitted cpu-user delta is -1
(not 0), and its major-page-fault reading drops from 5 to 3 yielding the
wrapped `uint64` delta 2^64 - 2 (not 0). -/
theorem c2_counterexample :
    newm.cpuUserTime - tpOld.info.metrics.cpuUserTime < 0 ∧
    (updateProc newm tpOld 2 ⟨0, 0⟩).1.lastaccum.cpuUser = -1 ∧
    (newm.majorPageFaults : Int) - (tpOld.info.metrics.majorPageFaults : Int) < 0 ∧
    (updateProc newm tpOld 2 ⟨0, 0⟩).1.lastaccum.majorPageFaults = W - 2 ∧
    W - 2 ≠ 0 := by
  have h := updateProc_lastaccum_io newm tpOld 2 ⟨0, 0⟩ (by decide)
  refine ⟨?_, ?_, by decide, ?_, by decide⟩
  · show (1 : Rat) - 2 < 0
    norm_num
  · rw [h]
    show (1 : Rat) - 2 = -1
    norm_num
  · rw [h]
    decide

/-- C2 (amended): the delta `updateProc` emits is the raw componentwise
difference of the readings, with no clamping: a `float64` counter that went
backwards emits its (negative) raw difference; an unsigned counter that went
backwards emits the difference wrapped modulo 2^64, a strictly positive
value, not 0.  (The other cited implementation, `trackedProc.update`,
delegates to `Counts.Sub`, which is not defined in the tree.) -/
theorem c2_delta_not_clamped (metrics : ProcMetrics) (tproc : TrackedProc) (now : Nat)
    (cerrs : collectErrors) :
    (metrics.cpuUserTime < tproc.info.metrics.cpuUserTime →
      (updateProc metrics tproc now cerrs).1.lastaccum.cpuUser =
        metrics.cpuUserTime - tproc.info.metrics.cpuUserTime ∧
      (updateProc metrics tproc now cerrs).1.lastaccum.cpuUser < 0) ∧
    (metrics.majorPageFaults < tproc.info.metrics.majorPageFaults →
      tproc.info.metrics.majorPageFaults < W →
      (updateProc metrics tproc now cerrs).1.lastaccum.majorPageFaults =
        W - (tproc.info.metrics.majorPageFaults - metrics.majorPageFaults) ∧
      0 < (updateProc metrics tproc now cerrs).1.lastaccum.majorPageFaults) ∧
    (metrics.readBytes ≠ -1 → metrics.readBytes < tproc.info.metrics.readBytes →
      tproc.info.metrics.readBytes - metrics.readBytes < (W : Int) →
      (updateProc metrics tproc now cerrs).1.lastaccum.readBytes =
        ((W : Int) + (metrics.readBytes - tproc.info.metrics.readBytes)).toNat ∧
      0 < (updateProc metrics tproc now cerrs).1.lastaccum.readBytes) := by
  refine ⟨?_, ?_, ?_⟩
  · intro h
    by_cases hrb : metrics.readBytes = -1
    · rw [updateProc_lastaccum_noio metrics tproc now cerrs hrb]
      exact ⟨rfl, by simpa using h⟩
    · rw [updateProc_lastaccum_io metrics tproc now cerrs hrb]
      exact ⟨rfl, by simpa using h⟩
  · intro h hb
    have hs := u64sub_of_lt h hb
    by_cases hrb : metrics.readBytes = -1
    · rw [updateProc_lastaccum_noio metrics tproc now cerrs hrb]
      exact hs
    · rw [updateProc_lastaccum_io metrics tproc now cerrs hrb]
      exact hs
  · intro hrb h hlt
    have hx : metrics.readBytes - tproc.info.metrics.readBytes < 0 := by linarith
    have hx2 : -(W : Int) < metrics.readBytes - tproc.info.metrics.readBytes := by linarith
    have hs := i64toU64_of_neg hx hx2
    rw [updateProc_lastaccum_io metrics tproc now cerrs hrb]
    exact hs

/-- Witness for `c2_delta_not_clamped` at the concrete scenario data. -/
theorem c2_delta_not_clamped_witness :
    (newm.cpuUserTime < tpOld.info.metrics.cpuUserTime) ∧
    ((updateProc newm tpOld 2 ⟨0, 0⟩).1.lastaccum.cpuUser =
        newm.cpuUserTime - tpOld.info.metrics.cpuUserTime ∧
      (updateProc newm tpOld 2 ⟨0, 0⟩).1.lastaccum.cpuUser < 0) :=
  ⟨by decide, (c2_delta_not_clamped newm tpOld 2 ⟨0, 0⟩).1 (by decide)⟩

theorem curgroups_lookup_aux (l : List (ProcId × Option TrackedProc))
    (acc : List (String × GroupCounts)) (gname : String) :
    lookupA (l.foldl curgroupsFold acc) gname =
      (if groupMembers l gname = [] then lookupA acc gname
       else some (curAgg (groupMembers l gname) ((lookupA acc gname).getD GroupCounts.zero))) := by
  induction l generalizing acc with
  | nil => simp [groupMembers]
  | cons e rest ih =>
    cases he : e.2 with
    | none =>
      have hms : groupMembers (e :: rest) gname = groupMembers rest gname := by
        simp [groupMembers, List.filterMap_cons, he]
      have hstep : curgroupsFold acc e = acc := by simp [curgroupsFold, he]
      rw [List.foldl_cons, hstep, ih, hms]
    | some tp =>
      by_cases htp : tp.groupName = gname
      · have hms : groupMembers (e :: rest) gname = tp :: groupMembers rest gname := by
          simp [groupMembers, List.filterMap_cons, he, htp]
        have hstep : curgroupsFold acc e =
            insertA acc gname
              (curgroupsStep ((lookupA acc gname).getD GroupCounts.zero) tp.GetStats) := by
          simp [curgroupsFold, he, htp]
        rw [List.foldl_cons, hstep, ih, hms]
        have hl : lookupA
            (insertA acc gname
              (curgroupsStep ((lookupA acc gname).getD GroupCounts.zero) tp.GetStats)) gname =
            some (curgroupsStep ((lookupA acc gname).getD GroupCounts.zero) tp.GetStats) := by
          rw [lookupA_insertA]; simp
        rw [hl]
        by_cases hrest : groupMembers rest gname = []
        · simp [hrest, curAgg]
        · simp [hrest, curAgg]
      · have hms : groupMembers (e :: rest) gname = groupMembers rest gname := by
          simp [groupMembers, List.filterMap_cons, he, htp]
        have hstep : curgroupsFold acc e =
            insertA acc tp.groupName
              (curgroupsStep ((lookupA acc tp.groupName).getD GroupCounts.zero) tp.GetStats) := by
          simp [curgroupsFold, he]
        have hl : lookupA
            (insertA acc tp.groupName
              (curgroupsStep ((lookupA acc tp.groupName).getD GroupCounts.zero) tp.GetStats))
            gname = lookupA acc gname := by
          rw [lookupA_insertA, if_neg (fun h => htp h.symm)]
        rw [List.foldl_cons, hstep, ih, hms, hl]

theorem curgroups_lookup (g : Grouper) (gname : String) :
    lookupA (curgroups g) gname =
      (if groupMembers g.tracker.tracked gname = [] then none
       else some (curAgg (groupMembers g.tracker.tracked gname) GroupCounts.zero)) := by
  have h := curgroups_lookup_aux g.tracker.tracked [] gname
  simpa [curgroups, lookupA] using h

theorem curgroupsStep_worst (cur : GroupCounts) (ts : trackedStats) :
    (curgroupsStep cur ts).worstFDratio =
      (if gflt cur.worstFDratio (goDiv ts.filedesc.openfd ts.filedesc.limit) then
        goDiv ts.filedesc.openfd ts.filedesc.limit
       else cur.worstFDratio) := by
  simp only [curgroupsStep]
  split <;> split <;> split <;> rfl

theorem curAgg_worst (ms : List TrackedProc) (start : GroupCounts) :
    (curAgg ms start).worstFDratio = foldmax (ratiosOf ms) start.worstFDratio := by
  induction ms generalizing start with
  | nil => rfl
  | cons tp rest ih =>
    show (curAgg rest (curgroupsStep start tp.GetStats)).worstFDratio = _
    rw [ih, curgroupsStep_worst]
    rfl

theorem gflt_nan_right (a : GoFloat) : gflt a GoFloat.nan = false := by
  cases a <;> rfl

theorem gflt_irrefl (a : GoFloat) : gflt a a = false := by
  cases a <;> simp [gflt]

theorem gflt_posInf_left (b : GoFloat) : gflt GoFloat.posInf b = false := by
  cases b <;> rfl

theorem gflt_ub_trans (a b c : GoFloat) (hab : gflt a b = false) (hac : gflt a c = true) :
    gflt c b = false := by
  cases a <;> cases b <;> cases c <;>
    first
    | rfl
    | (simp [gflt] at *; try linarith)

theorem gflt_true_ne_nan {a c : GoFloat} (hac : gflt a c = true) : c ≠ GoFloat.nan := by
  intro h
  rw [h, gflt_nan_right] at hac
  exact Bool.false_ne_true hac

theorem foldmax_pres (rs : List GoFloat) (acc x : GoFloat) (hx : gflt acc x = false) :
    gflt (foldmax rs acc) x = false := by
  induction rs generalizing acc with
  | nil => exact hx
  | cons r rest ih =>
    show gflt (foldmax rest (if gflt acc r then r else acc)) x = false
    by_cases h : gflt acc r = true
    · rw [if_pos h]
      exact ih r (gflt_ub_trans acc x r hx h)
    · rw [if_neg h]
      exact ih acc hx

theorem foldmax_ub (rs : List GoFloat) (acc : GoFloat) :
    ∀ r ∈ rs, gflt (foldmax rs acc) r = false := by
  induction rs generalizing acc with
  | nil => intro r hr; cases hr
  | cons r0 rest ih =>
    intro r hr
    show gflt (foldmax rest (if gflt acc r0 then r0 else acc)) r = false
    rcases List.mem_cons.mp hr with h | h
    · subst h
      by_cases hc : gflt acc r = true
      · rw [if_pos hc]
        exact foldmax_pres rest r r (gflt_irrefl r)
      · rw [if_neg hc]
        exact foldmax_pres rest acc r (by simpa using hc)
    · exact ih _ r h

theorem foldmax_attained (rs : List GoFloat) (acc : GoFloat) :
    foldmax rs acc = acc ∨ foldmax rs acc ∈ rs := by
  induction rs generalizing acc with
  | nil => left; rfl
  | cons r rest ih =>
    have hfold : foldmax (r :: rest) acc = foldmax rest (if gflt acc r then r else acc) := rfl
    rw [hfold]
    by_cases h : gflt acc r = true
    · rw [if_pos h]
      rcases ih r with h1 | h1
      · right; rw [h1]; exact List.mem_cons_self r rest
      · right; exact List.mem_cons_of_mem r h1
    · rw [if_neg h]
      rcases ih acc with h1 | h1
      · left; exact h1
      · right; exact List.mem_cons_of_mem r h1

theorem foldmax_posInf_absorb (rs : List GoFloat) :
    foldmax rs GoFloat.posInf = GoFloat.posInf := by
  induction rs with
  | nil => rfl
  | cons r rest ih =>
    show foldmax rest (if gflt GoFloat.posInf r then r else GoFloat.posInf) = _
    rw [gflt_posInf_left, if_neg (by simp)]
    exact ih

theorem foldmax_posInf (rs : List GoFloat) (acc : GoFloat) (hnan : acc ≠ GoFloat.nan)
    (h : GoFloat.posInf ∈ rs) : foldmax rs acc = GoFloat.posInf := by
  induction rs generalizing acc with
  | nil => cases h
  | cons r rest ih =>
    show foldmax rest (if gflt acc r then r else acc) = _
    rcases List.mem_cons.mp h with h1 | h1
    · subst h1
      have hup : (if gflt acc GoFloat.posInf then GoFloat.posInf else acc) = GoFloat.posInf ∨
          (if gflt acc GoFloat.posInf then GoFloat.posInf else acc) = acc := by
        by_cases hc : gflt acc GoFloat.posInf = true
        · left; rw [if_pos hc]
        · right; rw [if_neg hc]
      have hacc : (if gflt acc GoFloat.posInf then GoFloat.posInf else acc) = GoFloat.posInf := by
        cases acc with
        | nan => exact absurd rfl hnan
        | negInf => rfl
        | posInf => rw [if_neg (by rw [gflt_irrefl]; simp)]
        | finite q => rfl
      rw [hacc]
      exact foldmax_posInf_absorb rest
    · have hnan2 : (if gflt acc r then r else acc) ≠ GoFloat.nan := by
        by_cases hc : gflt acc r = true
        · rw [if_pos hc]; exact gflt_true_ne_nan hc
        · rw [if_neg hc]; exact hnan
      exact ih _ hnan2 h1

/-- C7: the claim asserts `worst_fd_ratio` equals 0 when no member has a
positive fd limit.  `curgroups` computes `float64(open)/float64(limit)` with
no `limit > 0` filter: for this group whose single member has 3 open
descriptors and limit 0, the reported ratio is IEEE +Inf, not 0. -/
theorem c7_counterexample :
    fdLimits (groupMembers gFD.tracker.tracked "g") = [0] ∧
    (lookupA (curgroups gFD) "g").map GroupCounts.worstFDratio = some GoFloat.posInf ∧
    GoFloat.posInf ≠ GoFloat.finite 0 := by
  refine ⟨rfl, ?_, by decide⟩
  rfl

/-- C7 (amended): for any group, `worst_fd_ratio` is the running IEEE
maximum, seeded with 0, of the unfiltered member ratios `open/limit`: it is
never strictly below any member's ratio, it is 0 or one of the member
ratios, and a member with fd limit 0 and positive open count forces it to
+Inf; a group with no live members has no `curgroups` entry at all (the
grouper then reports it, if it has history, with zero gauges). -/
theorem c7_worst_fd_ratio (g : Grouper) (gname : String) :
    (groupMembers g.tracker.tracked gname = [] → lookupA (curgroups g) gname = none) ∧
    (∀ gc, lookupA (curgroups g) gname = some gc →
      gc.worstFDratio =
        foldmax (ratiosOf (groupMembers g.tracker.tracked gname)) (GoFloat.finite 0) ∧
      (∀ tp ∈ groupMembers g.tracker.tracked gname,
        gflt gc.worstFDratio (tpRatio tp) = false) ∧
      (gc.worstFDratio = GoFloat.finite 0 ∨
        ∃ tp ∈ groupMembers g.tracker.tracked gname, gc.worstFDratio = tpRatio tp) ∧
      ((∃ tp ∈ groupMembers g.tracker.tracked gname,
          tp.GetStats.filedesc.limit = 0 ∧ 0 < tp.GetStats.filedesc.openfd) →
        gc.worstFDratio = GoFloat.posInf)) := by
  constructor
  · intro h
    rw [curgroups_lookup, if_pos h]
  · intro gc hgc
    have hne : ¬ groupMembers g.tracker.tracked gname = [] := by
      intro h
      rw [curgroups_lookup, if_pos h] at hgc
      cases hgc
    rw [curgroups_lookup, if_neg hne] at hgc
    have hgc2 : gc = curAgg (groupMembers g.tracker.tracked gname) GroupCounts.zero :=
      (Option.some.injEq _ _ ▸ hgc).symm
    have hw : gc.worstFDratio =
        foldmax (ratiosOf (groupMembers g.tracker.tracked gname)) (GoFloat.finite 0) := by
      rw [hgc2, curAgg_worst]
      rfl
    refine ⟨hw, ?_, ?_, ?_⟩
    · intro tp htp
      rw [hw]
      exact foldmax_ub _ _ (tpRatio tp) (List.mem_map_of_mem tpRatio htp)
    · rw [hw]
      rcases foldmax_attained (ratiosOf (groupMembers g.tracker.tracked gname))
          (GoFloat.finite 0) with h | h
      · left; exact h
      · right
        rcases List.mem_map.mp h with ⟨tp, htp, hr⟩
        exact ⟨tp, htp, hr.symm⟩
    · rintro ⟨tp, htp, hlim, hopen⟩
      rw [hw]
      apply foldmax_posInf _ _ (by simp)
      have hrt : tpRatio tp = GoFloat.posInf := by
        rw [tpRatio, goDiv, hlim]
        simp [hopen]
      rw [← hrt]
      exact List.mem_map_of_mem tpRatio htp

/-- Witness for `c7_worst_fd_ratio` at the concrete one-member group. -/
theorem c7_worst_fd_ratio_witness :
    lookupA (curgroups gFD) "g" = some cgcFD ∧ cgcFD.worstFDratio = GoFloat.posInf := by
  have hmem : groupMembers gFD.tracker.tracked "g" = [tpFD] := rfl
  refine ⟨rfl, ?_⟩
  exact ((c7_worst_fd_ratio gFD "g").2 cgcFD rfl).2.2.2
    ⟨tpFD, hmem ▸ List.Mem.head _, rfl, by decide⟩

theorem curgroups_nodup (g : Grouper) : NodupKeys (curgroups g) := by
  unfold curgroups
  generalize hacc : ([] : List (String × GroupCounts)) = acc
  have hnd : NodupKeys acc := by rw [← hacc]; exact List.nodup_nil
  clear hacc
  induction g.tracker.tracked generalizing acc with
  | nil => exact hnd
  | cons e rest ih =>
    rw [List.foldl_cons]
    apply ih
    cases he : e.2 with
    | none => simpa [curgroupsFold, he] using hnd
    | some tp =>
      have : curgroupsFold acc e =
          insertA acc tp.groupName
            (curgroupsStep ((lookupA acc tp.groupName).getD GroupCounts.zero) tp.GetStats) := by
        simp [curgroupsFold, he]
      rw [this]
      exact nodupKeys_insertA _ _ _ hnd

theorem groupsFold1_lookup (gs : List (String × GroupCounts)) (gstats : List (String × Counts))
    (hnd : NodupKeys gs) (acc1 : List (String × GroupCounts)) (acc2 : List (String × Counts))
    (gname : String) :
    (lookupA (gs.foldl (groupsAddFloor gstats) (acc1, acc2)).1 gname =
      (match lookupA gs gname with
       | some grp => some (addFloor gstats gname grp)
       | none => lookupA acc1 gname)) ∧
    (lookupA (gs.foldl (groupsAddFloor gstats) (acc1, acc2)).2 gname =
      (match lookupA gs gname with
       | some grp => some (addFloor gstats gname grp).counts
       | none => lookupA acc2 gname)) := by
  induction gs generalizing acc1 acc2 with
  | nil => exact ⟨rfl, rfl⟩
  | cons e rest ih =>
    have hem : e.1 ∉ rest.map Prod.fst := by
      have := hnd
      unfold NodupKeys at this
      rw [List.map_cons, List.nodup_cons] at this
      exact this.1
    have hndr : NodupKeys rest := by
      have := hnd
      unfold NodupKeys at this
      rw [List.map_cons, List.nodup_cons] at this
      exact this.2
    have hstep : groupsAddFloor gstats (acc1, acc2) e =
        (insertA acc1 e.1 (addFloor gstats e.1 e.2),
         insertA acc2 e.1 (addFloor gstats e.1 e.2).counts) := rfl
    rw [List.foldl_cons, hstep]
    by_cases hg : gname = e.1
    · have hrest : lookupA rest gname = none :=
        lookupA_eq_none_of_not_mem rest gname (hg ▸ hem)
      have hcons : lookupA (e :: rest) gname = some e.2 := by simp [lookupA, hg]
      rcases ih hndr (insertA acc1 e.1 (addFloor gstats e.1 e.2))
          (insertA acc2 e.1 (addFloor gstats e.1 e.2).counts) with ⟨ih1, ih2⟩
      rw [hrest] at ih1 ih2
      constructor
      · rw [ih1, hcons, lookupA_insertA, if_pos hg, hg]
      · rw [ih2, hcons, lookupA_insertA, if_pos hg, hg]
    · have hcons : lookupA (e :: rest) gname = lookupA rest gname := by simp [lookupA, hg]
      rcases ih hndr (insertA acc1 e.1 (addFloor gstats e.1 e.2))
          (insertA acc2 e.1 (addFloor gstats e.1 e.2).counts) with ⟨ih1, ih2⟩
      rw [hcons]
      cases hr : lookupA rest gname with
      | some grp =>
        rw [hr] at ih1 ih2
        exact ⟨ih1, ih2⟩
      | none =>
        rw [hr] at ih1 ih2
        rw [ih1, ih2, lookupA_insertA, if_neg hg, lookupA_insertA, if_neg hg]
        exact ⟨rfl, rfl⟩

theorem groupsFold2_lookup (sts : List (String × Counts)) (acc : List (String × GroupCounts))
    (gname : String) :
    lookupA (sts.foldl groupsAddOld acc) gname =
      (match lookupA acc gname with
       | some v => some v
       | none => (lookupA sts gname).map (fun c => { GroupCounts.zero with counts := c })) := by
  induction sts generalizing acc with
  | nil => cases h : lookupA acc gname <;> simp [h, lookupA]
  | cons e rest ih =>
    rw [List.foldl_cons]
    cases he : lookupA acc e.1 with
    | some v0 =>
      have hstep : groupsAddOld acc e = acc := by simp [groupsAddOld, he]
      rw [hstep, ih]
      by_cases hg : gname = e.1
      · rw [hg, he]
      · have hcons : lookupA (e :: rest) gname = lookupA rest gname := by simp [lookupA, hg]
        rw [hcons]
    | none =>
      have hstep : groupsAddOld acc e =
          insertA acc e.1 { GroupCounts.zero with counts := e.2 } := by
        simp [groupsAddOld, he]
      rw [hstep, ih, lookupA_insertA]
      by_cases hg : gname = e.1
      · rw [if_pos hg, hg, he]
        simp [lookupA]
      · have hcons : lookupA (e :: rest) gname = lookupA rest gname := by simp [lookupA, hg]
        rw [if_neg hg, hcons]

theorem Groups_lookup (g : Grouper) (gname : String) :
    (lookupA (Groups g).1 gname =
      (match lookupA (curgroups g) gname with
       | some grp => some (addFloor g.groupStats gname grp)
       | none =>
          (lookupA g.groupStats gname).map (fun c => { GroupCounts.zero with counts := c }))) ∧
    (lookupA (Groups g).2.groupStats gname =
      (match lookupA (curgroups g) gname with
       | some grp => some (addFloor g.groupStats gname grp).counts
       | none => lookupA g.groupStats gname)) := by
  have hrep : (Groups g).1 =
      g.groupStats.foldl groupsAddOld
        ((curgroups g).foldl (groupsAddFloor g.groupStats) (curgroups g, g.groupStats)).1 := rfl
  have hsts : (Groups g).2.groupStats =
      ((curgroups g).foldl (groupsAddFloor g.groupStats) (curgroups g, g.groupStats)).2 := rfl
  rcases groupsFold1_lookup (curgroups g) g.groupStats (curgroups_nodup g)
      (curgroups g) g.groupStats gname with ⟨h1, h2⟩
  constructor
  · rw [hrep, groupsFold2_lookup, h1]
    cases hc : lookupA (curgroups g) gname with
    | some grp => rfl
    | none => rfl
  · rw [hsts, h2]

theorem curgroupsStep_counts (cur : GroupCounts) (ts : trackedStats) :
    (curgroupsStep cur ts).counts = cur.counts.Add ts.latest := by
  simp only [curgroupsStep]
  split <;> split <;> split <;> rfl

theorem curAgg_counts (ms : List TrackedProc) (start : GroupCounts) :
    (curAgg ms start).counts = sumDeltas ms start.counts := by
  induction ms generalizing start with
  | nil => rfl
  | cons tp rest ih =>
    show (curAgg rest (curgroupsStep start tp.GetStats)).counts = _
    rw [ih, curgroupsStep_counts]
    rfl

theorem sumLatest_cons (tp : TrackedProc) (rest : List TrackedProc) (f : Counts → Nat) :
    sumLatest (tp :: rest) f = f tp.lastaccum + sumLatest rest f := by
  simp [sumLatest]

theorem sumDeltas_le_generic (f : Counts → Nat)
    (hf : ∀ c d, f (c.Add d) = u64add (f c) (f d)) (ms : List TrackedProc) (c0 : Counts) :
    f (sumDeltas ms c0) ≤ f c0 + sumLatest ms f := by
  induction ms generalizing c0 with
  | nil => simp [sumDeltas, sumLatest]
  | cons tp rest ih =>
    calc f (sumDeltas (tp :: rest) c0) = f (sumDeltas rest (c0.Add tp.GetStats.latest)) := rfl
      _ ≤ f (c0.Add tp.GetStats.latest) + sumLatest rest f := ih _
      _ ≤ (f c0 + f tp.GetStats.latest) + sumLatest rest f := by
          rw [hf]
          exact Nat.add_le_add_right (Nat.mod_le _ _) _
      _ = f c0 + sumLatest (tp :: rest) f := by
          rw [sumLatest_cons]
          have : f tp.GetStats.latest = f tp.lastaccum := rfl
          rw [this]
          ring

theorem sumDeltas_ge_generic (f : Counts → Rat)
    (hf : ∀ c d, f (c.Add d) = f c + f d) (ms : List TrackedProc) (c0 : Counts)
    (h : ∀ tp ∈ ms, 0 ≤ f tp.lastaccum) : f c0 ≤ f (sumDeltas ms c0) := by
  induction ms generalizing c0 with
  | nil => exact le_refl _
  | cons tp rest ih =>
    have h0 : 0 ≤ f tp.lastaccum := h tp (List.mem_cons_self tp rest)
    calc f c0 ≤ f (c0.Add tp.GetStats.latest) := by
          rw [hf]
          have : f tp.GetStats.latest = f tp.lastaccum := rfl
          rw [this]
          linarith
      _ ≤ f (sumDeltas rest (c0.Add tp.GetStats.latest)) :=
          ih _ (fun tp2 h2 => h tp2 (List.mem_cons_of_mem tp h2))
      _ = f (sumDeltas (tp :: rest) c0) := rfl

theorem CountsLE_refl (c : Counts) : CountsLE c c :=
  ⟨le_refl _, le_refl _, le_refl _, le_refl _, le_refl _, le_refl _⟩

theorem floor_le_u64add (s fl bound : Nat) (hs : s ≤ bound) (hb : fl + bound < W) :
    fl ≤ u64add s fl := by
  unfold u64add
  rw [Nat.mod_eq_of_lt (by omega)]
  omega

/-- C1: the claim asserts that every counter the Grouper publishes for a
group never decreases between successive scrapes.  In this run of the
pipeline (`Track`, then `updateProc` refreshes, `Groups` after each scrape)
the process's read-bytes reading goes 10, 12, 11; `updateProc` turns the
backward step into the wrapped delta 2^64 - 1 and `Groups` adds it to the
stored floor 2 modulo 2^64, so the group's published read-bytes counter
falls from 2 at the second scrape to 1 at the third. -/
theorem c1_counterexample :
    reportReadBytes r2.1 "g" = some 2 ∧
    reportReadBytes r3.1 "g" = some 1 ∧
    ¬ (2 : Nat) ≤ 1 := by
  refine ⟨by decide, by decide, by decide⟩

/-- C1 (amended): a group with a stored floor and no live member is still
reported, with exactly the floor as its counters, and the floor is kept
unchanged; and whenever every member's last delta is componentwise
non-negative (true of the rational cpu components by hypothesis, of the
unsigned components by type) and the floor plus the summed unsigned deltas
stays below 2^64, the published counters are at least the stored floor and
are committed as the new floor.  Without those conditions monotonicity
fails (see the counterexample): deltas are not clamped and `uint64`
accumulation wraps. -/
theorem c1_floor_monotone (g : Grouper) (gname : String) (floor : Counts)
    (hf : lookupA g.groupStats gname = some floor) :
    (groupMembers g.tracker.tracked gname = [] →
      lookupA (Groups g).1 gname = some { GroupCounts.zero with counts := floor } ∧
      lookupA (Groups g).2.groupStats gname = some floor) ∧
    ((∀ tp ∈ groupMembers g.tracker.tracked gname,
        0 ≤ tp.lastaccum.cpuUser ∧ 0 ≤ tp.lastaccum.cpuSystem) →
      floor.readBytes + sumLatest (groupMembers g.tracker.tracked gname) Counts.readBytes < W →
      floor.writeBytes + sumLatest (groupMembers g.tracker.tracked gname) Counts.writeBytes < W →
      floor.majorPageFaults +
          sumLatest (groupMembers g.tracker.tracked gname) Counts.majorPageFaults < W →
      floor.minorPageFaults +
          sumLatest (groupMembers g.tracker.tracked gname) Counts.minorPageFaults < W →
      ∃ gc, lookupA (Groups g).1 gname = some gc ∧ CountsLE floor gc.counts ∧
        lookupA (Groups g).2.groupStats gname = some gc.counts) := by
  rcases Groups_lookup g gname with ⟨hrep, hsts⟩
  constructor
  · intro hemp
    have hcg : lookupA (curgroups g) gname = none := by
      rw [curgroups_lookup, if_pos hemp]
    rw [hcg] at hrep hsts
    constructor
    · rw [hrep]
      show Option.map _ (lookupA g.groupStats gname) = _
      rw [hf]
      rfl
    · rw [hsts]
      exact hf
  · intro hq h1 h2 h3 h4
    by_cases hemp : groupMembers g.tracker.tracked gname = []
    · have hcg : lookupA (curgroups g) gname = none := by
        rw [curgroups_lookup, if_pos hemp]
      rw [hcg] at hrep hsts
      refine ⟨{ GroupCounts.zero with counts := floor }, ?_, CountsLE_refl floor, ?_⟩
      · rw [hrep]
        show Option.map _ (lookupA g.groupStats gname) = _
        rw [hf]
        rfl
      · rw [hsts]
        exact hf
    · have hcg : lookupA (curgroups g) gname =
          some (curAgg (groupMembers g.tracker.tracked gname) GroupCounts.zero) := by
        rw [curgroups_lookup, if_neg hemp]
      rw [hcg] at hrep hsts
      have hfl : addFloor g.groupStats gname
          (curAgg (groupMembers g.tracker.tracked gname) GroupCounts.zero) =
          { curAgg (groupMembers g.tracker.tracked gname) GroupCounts.zero with
            counts := (curAgg (groupMembers g.tracker.tracked gname) GroupCounts.zero).counts.Add
              floor } := by
        unfold addFloor
        rw [hf]
      have hS : (curAgg (groupMembers g.tracker.tracked gname) GroupCounts.zero).counts =
          sumDeltas (groupMembers g.tracker.tracked gname) Counts.zero := by
        rw [curAgg_counts]
        rfl
      refine ⟨_, hrep, ?_, hsts⟩
      rw [hfl, hS]
      have hrq1 : (0 : Rat) ≤ (sumDeltas (groupMembers g.tracker.tracked gname)
          Counts.zero).cpuUser := by
        have := sumDeltas_ge_generic (fun c => c.cpuUser) (fun _ _ => rfl)
          (groupMembers g.tracker.tracked gname) Counts.zero
          (fun tp htp => (hq tp htp).1)
        simpa [Counts.zero] using this
      have hrq2 : (0 : Rat) ≤ (sumDeltas (groupMembers g.tracker.tracked gname)
          Counts.zero).cpuSystem := by
        have := sumDeltas_ge_generic (fun c => c.cpuSystem) (fun _ _ => rfl)
          (groupMembers g.tracker.tracked gname) Counts.zero
          (fun tp htp => (hq tp htp).2)
        simpa [Counts.zero] using this
      have hn1 := sumDeltas_le_generic (fun c => c.readBytes) (fun _ _ => rfl)
        (groupMembers g.tracker.tracked gname) Counts.zero
      have hn2 := sumDeltas_le_generic (fun c => c.writeBytes) (fun _ _ => rfl)
        (groupMembers g.tracker.tracked gname) Counts.zero
      have hn3 := sumDeltas_le_generic (fun c => c.majorPageFaults) (fun _ _ => rfl)
        (groupMembers g.tracker.tracked gname) Counts.zero
      have hn4 := sumDeltas_le_generic (fun c => c.minorPageFaults) (fun _ _ => rfl)
        (groupMembers g.tracker.tracked gname) Counts.zero
      simp only [Counts.zero, Nat.zero_add] at hn1 hn2 hn3 hn4
      refine ⟨by show floor.cpuUser ≤ _ + floor.cpuUser; linarith,
        by show floor.cpuSystem ≤ _ + floor.cpuSystem; linarith,
        floor_le_u64add _ _ _ hn1 h1,
        floor_le_u64add _ _ _ hn2 h2,
        floor_le_u64add _ _ _ hn3 h3,
        floor_le_u64add _ _ _ hn4 h4⟩

/-- Witness for `c1_floor_monotone`: the empty group "g" of `gEmpty` keeps
and republishes its stored floor. -/
theorem c1_floor_monotone_witness :
    lookupA (Groups gEmpty).1 "g" = some { GroupCounts.zero with counts := cFloor } ∧
    lookupA (Groups gEmpty).2.groupStats "g" = some cFloor :=
  (c1_floor_monotone gEmpty "g" cFloor rfl).1 rfl

end OT

namespace NT

open PE

theorem lookupA_none_not_mem {κ β : Type} [DecidableEq κ] (l : List (κ × β)) (k : κ)
    (h : lookupA l k = none) : k ∉ l.map Prod.fst := by
  induction l with
  | nil => simp
  | cons e rest ih =>
    by_cases hk : k = e.1
    · simp only [lookupA, if_pos hk] at h
      cases h
    · simp only [lookupA, if_neg hk] at h
      simp only [List.map_cons, List.mem_cons]
      push_neg
      exact ⟨hk, ih h⟩

theorem lookupA_filter_none {κ β : Type} [DecidableEq κ] (l : List (κ × β)) (k : κ)
    (pred : κ × β → Bool) (h : lookupA l k = none) : lookupA (l.filter pred) k = none := by
  apply lookupA_eq_none_of_not_mem
  intro hmem
  exact lookupA_none_not_mem l k h
    (List.Sublist.subset (List.Sublist.map Prod.fst (List.filter_sublist l)) hmem)

theorem step2F_nil (fuel : Nat) (t : State) : step2F fuel t [] = some t := rfl

theorem step2_guard_nil (b : Bool) (fuel : Nat) (t : State) :
    (if b then step2F fuel t [] else some t) = some t := by
  cases b <;> rfl

theorem collectUpdates_fold_append (l : List (ID × Option trackedProc))
    (acc : List UpdateR) :
    l.foldl (fun acc2 e => match e.2 with
      | some tproc => acc2 ++ [getUpdate tproc]
      | none => acc2) acc =
    acc ++ l.foldl (fun acc2 e => match e.2 with
      | some tproc => acc2 ++ [getUpdate tproc]
      | none => acc2) [] := by
  induction l generalizing acc with
  | nil => simp
  | cons e rest ih =>
    cases he : e.2 with
    | none =>
      rw [List.foldl_cons, List.foldl_cons]
      simp only [he]
      exact ih acc
    | some tp =>
      rw [List.foldl_cons, List.foldl_cons]
      simp only [he]
      rw [ih (acc ++ [getUpdate tp]), ih ([] ++ [getUpdate tp])]
      simp

theorem collect_fold_mem (l : List (ID × Option trackedProc)) (k : ID) (tp : trackedProc)
    (h : (k, some tp) ∈ l) :
    getUpdate tp ∈ l.foldl (fun acc2 e => match e.2 with
      | some tproc => acc2 ++ [getUpdate tproc]
      | none => acc2) [] := by
  induction l with
  | nil => cases h
  | cons e rest ih =>
    rw [List.foldl_cons]
    rcases List.mem_cons.mp h with h1 | h1
    · rw [← h1]
      rw [collectUpdates_fold_append]
      simp
    · cases he : e.2 with
      | none =>
        simp only [he]
        exact ih h1
      | some tp2 =>
        simp only [he]
        rw [collectUpdates_fold_append]
        apply List.mem_append_right
        exact ih h1

theorem collectUpdates_mem (t : State) (k : ID) (tp : trackedProc)
    (h : (k, some tp) ∈ t.tracked) : getUpdate tp ∈ collectUpdates t :=
  collect_fold_mem t.tracked k tp h

/-- C5: the claim asserts that a tombstoned key not produced by the
snapshot is removed by the end-of-cycle rule.  Here the registry holds
only the tombstone `K5`, the snapshot is empty, the Update cycle completes,
and the tombstone is still in the registry afterwards: the retirement loop
skips nil entries (the source marks this with a "TODO is this a bug?"
comment about the resulting leak). -/
theorem c5_counterexample :
    lookupA stateC5.tracked K5 = some none ∧ c5tombstone = some (some none) := by
  exact ⟨rfl, rfl⟩

theorem lookupA_filter_pos {κ β : Type} [DecidableEq κ] (l : List (κ × β)) (k : κ) (v : β)
    (pred : κ × β → Bool) (h : lookupA l k = some v) (hp : pred (k, v) = true) :
    lookupA (l.filter pred) k = some v := by
  induction l with
  | nil => cases h
  | cons e rest ih =>
    by_cases hk : k = e.1
    · simp only [lookupA, if_pos hk] at h
      injection h with hv
      subst hv
      subst hk
      rw [Prod.mk.eta] at hp
      rw [List.filter_cons_of_pos hp]
      simp [lookupA]
    · simp only [lookupA, if_neg hk] at h
      cases hpe : pred e with
      | true =>
        rw [List.filter_cons_of_pos hpe]
        simp only [lookupA, if_neg hk]
        exact ih h
      | false =>
        rw [List.filter_cons_of_neg (by simp [hpe])]
        exact ih h

theorem handleProc_tombstone_pres (t : State) (p : SnapProc) (now : Nat) (K : ID)
    (hK : lookupA t.tracked K = some none)
    (hwf : WFpids t)
    (hp : ∀ id2, p.getProcID = Except.ok id2 → id2.pid ≠ K.pid ∨ id2 = K) :
    lookupA (handleProc t p now).2.2.tracked K = some none ∧
    WFpids (handleProc t p now).2.2 ∧
    (∀ np, (handleProc t p now).1 = some np → np.id.pid ≠ K.pid) := by
  cases hid : p.getProcID with
  | error e =>
    simp only [handleProc, hid]
    exact ⟨hK, hwf, fun np h => by cases h⟩
  | ok procID =>
    simp only [handleProc, hid]
    by_cases hg : lookupA t.tracked procID = some none
    · rw [if_pos hg]
      exact ⟨hK, hwf, fun np h => by cases h⟩
    · rw [if_neg hg]
      have hKps : procID.pid ≠ K.pid := by
        rcases hp procID hid with h | h
        · exact h
        · exfalso
          apply hg
          rw [h]
          exact hK
      have hKne : K ≠ procID := fun he => hKps (congrArg ID.pid he.symm)
      cases hm : p.getMetrics with
      | error e =>
        simp only [hm]
        exact ⟨hK, hwf, fun np h => by cases h⟩
      | ok pr =>
        simp only [hm]
        cases hl : lookupA t.tracked procID with
        | some o =>
          cases o with
          | none => exact absurd hl hg
          | some last =>
            simp only [hl]
            refine ⟨?_, hwf, fun np h => by cases h⟩
            rw [lookupA_insertA, if_neg hKne]
            exact hK
        | none =>
          simp only [hl]
          cases hst : p.getStatic with
          | error e =>
            simp only [hst]
            exact ⟨hK, hwf, fun np h => by cases h⟩
          | ok static =>
            simp only [hst]
            cases hpi : lookupA t.procIds procID.pid with
            | some oldID =>
              simp only [hpi]
              have hop : oldID.pid = procID.pid := hwf _ _ hpi
              have hone : K ≠ oldID := by
                intro he
                apply hKps
                rw [← hop, ← he]
              refine ⟨?_, ?_, ?_⟩
              · rw [lookupA_eraseA _ _ _ hone]
                exact hK
              · intro pid id2 hlk
                rw [lookupA_insertA] at hlk
                by_cases hpp : pid = procID.pid
                · rw [if_pos hpp] at hlk
                  injection hlk with hv
                  rw [← hv, hpp]
                · rw [if_neg hpp] at hlk
                  exact hwf _ _ hlk
              · intro np h
                injection h with hnp
                rw [← hnp]
                exact hKps
            | none =>
              simp only [hpi]
              refine ⟨hK, ?_, ?_⟩
              · intro pid id2 hlk
                rw [lookupA_insertA] at hlk
                by_cases hpp : pid = procID.pid
                · rw [if_pos hpp] at hlk
                  injection hlk with hv
                  rw [← hv, hpp]
                · rw [if_neg hpp] at hlk
                  exact hwf _ _ hlk
              · intro np h
                injection h with hnp
                rw [← hnp]
                exact hKps

theorem updateFold_tombstone_pres (now : Nat) (K : ID) (procs : List SnapProc) :
    ∀ acc : List IDInfo × CollectErrors × State,
    lookupA acc.2.2.tracked K = some none → WFpids acc.2.2 →
    (∀ np ∈ acc.1, np.id.pid ≠ K.pid) →
    (∀ p ∈ procs, ∀ id2, p.getProcID = Except.ok id2 → id2.pid ≠ K.pid ∨ id2 = K) →
    lookupA (procs.foldl (updateFoldStep now) acc).2.2.tracked K = some none ∧
    WFpids (procs.foldl (updateFoldStep now) acc).2.2 ∧
    (∀ np ∈ (procs.foldl (updateFoldStep now) acc).1, np.id.pid ≠ K.pid) := by
  induction procs with
  | nil => intro acc h1 h2 h3 _; exact ⟨h1, h2, h3⟩
  | cons p rest ih =>
    intro acc h1 h2 h3 h4
    rw [List.foldl_cons]
    rcases handleProc_tombstone_pres acc.2.2 p now K h1 h2
        (h4 p (List.mem_cons_self p rest)) with ⟨g1, g2, g3⟩
    apply ih
    · exact g1
    · exact g2
    · intro np hnp
      revert hnp
      show np ∈ (updateFoldStep now acc p).1 → _
      unfold updateFoldStep
      cases hh : (handleProc acc.2.2 p now).1 with
      | some np2 =>
        simp only [hh]
        intro hnp
        rcases List.mem_append.mp hnp with hm | hm
        · exact h3 np hm
        · rw [List.mem_singleton.mp hm]
          exact g3 np2 hh
      | none =>
        simp only [hh]
        exact h3 np
    · exact fun p2 hp2 => h4 p2 (List.mem_cons_of_mem p hp2)

theorem cleanup_tombstone_pres (t : State) (now : Nat) (K : ID)
    (hK : lookupA t.tracked K = some none) :
    lookupA (cleanup t now).tracked K = some none := by
  unfold cleanup
  exact lookupA_filter_pos t.tracked K none _ hK rfl

theorem mem_insertA {κ β : Type} [DecidableEq κ] (m : List (κ × β)) (k : κ) (v : β)
    (e : κ × β) (h : e ∈ insertA m k v) : e = (k, v) ∨ e ∈ m := by
  rcases List.mem_cons.mp h with h1 | h1
  · left; exact h1
  · right; exact List.mem_of_mem_filter h1

theorem step1_tombstone_pres (newProcs : List IDInfo) (K : ID)
    (hnp : ∀ np ∈ newProcs, np.id.pid ≠ K.pid) :
    ∀ (acc : State × List (ID × IDInfo)),
    lookupA acc.1.tracked K = some none →
    (∀ e ∈ acc.2, e.2.id.pid ≠ K.pid) →
    lookupA (newProcs.foldl (fun (acc : State × List (ID × IDInfo)) idinfo =>
        let r := acc.1.namer idinfo.static.name idinfo.static.cmdline
        if r.1 then (track acc.1 r.2 idinfo, acc.2)
        else (acc.1, insertA acc.2 idinfo.id idinfo)) acc).1.tracked K = some none ∧
    (∀ e ∈ (newProcs.foldl (fun (acc : State × List (ID × IDInfo)) idinfo =>
        let r := acc.1.namer idinfo.static.name idinfo.static.cmdline
        if r.1 then (track acc.1 r.2 idinfo, acc.2)
        else (acc.1, insertA acc.2 idinfo.id idinfo)) acc).2, e.2.id.pid ≠ K.pid) := by
  induction newProcs with
  | nil => intro acc h1 h2; exact ⟨h1, h2⟩
  | cons np rest ih =>
    intro acc h1 h2
    rw [List.foldl_cons]
    have hnpK : np.id.pid ≠ K.pid := hnp np (List.mem_cons_self np rest)
    have hKne : K ≠ np.id := fun he => hnpK (congrArg ID.pid he.symm)
    have hrest : ∀ np2 ∈ rest, np2.id.pid ≠ K.pid :=
      fun np2 h => hnp np2 (List.mem_cons_of_mem np h)
    cases hw : (acc.1.namer np.static.name np.static.cmdline).1 with
    | true =>
      have hstep : (let r := acc.1.namer np.static.name np.static.cmdline
          if r.1 then (track acc.1 r.2 np, acc.2)
          else (acc.1, insertA acc.2 np.id np)) =
          (track acc.1 (acc.1.namer np.static.name np.static.cmdline).2 np, acc.2) := by
        simp only [hw, if_true]
      rw [hstep]
      apply ih hrest
      · show lookupA (track acc.1 _ np).tracked K = some none
        unfold track
        rw [lookupA_insertA, if_neg hKne]
        exact h1
      · exact h2
    | false =>
      have hstep : (let r := acc.1.namer np.static.name np.static.cmdline
          if r.1 then (track acc.1 r.2 np, acc.2)
          else (acc.1, insertA acc.2 np.id np)) =
          (acc.1, insertA acc.2 np.id np) := by
        simp only [hw, Bool.false_eq_true, if_false]
      rw [hstep]
      apply ih hrest
      · exact h1
      · intro e he
        rcases mem_insertA acc.2 np.id np e he with h | h
        · rw [h]
          exact hnpK
        · exact h2 e h

theorem checkAncestry_tracked_pres (K : ID) :
    ∀ (fuel : Nat) (t : State) (info : IDInfo) (U : List (ID × IDInfo)) (name : String)
      (t2 : State),
    info.id ≠ K → (∀ e ∈ U, e.2.id ≠ K) →
    checkAncestryF fuel t info U = some (name, t2) →
    lookupA t2.tracked K = lookupA t.tracked K := by
  intro fuel
  induction fuel with
  | zero => intro t info U name t2 _ _ h; cases h
  | succ n ih =>
    intro t info U name t2 hinfo hU h
    have hKi : K ≠ info.id := fun he => hinfo he.symm
    rw [checkAncestryF] at h
    by_cases hroot : ((lookupA t.procIds info.static.parentPid).getD ⟨0, 0⟩).pid < 1
    · rw [if_pos hroot] at h
      injection h with h
      injection h with h1 h2
      rw [← h2]
      show lookupA (ignore t info.id).tracked K = _
      unfold ignore
      rw [lookupA_insertA, if_neg hKi]
    · rw [if_neg hroot] at h
      cases hl : lookupA t.tracked ((lookupA t.procIds info.static.parentPid).getD ⟨0, 0⟩) with
      | some o =>
        cases o with
        | some ptproc =>
          simp only [hl] at h
          injection h with h
          injection h with h1 h2
          rw [← h2]
          show lookupA (track t ptproc.groupName info).tracked K = _
          unfold track
          rw [lookupA_insertA, if_neg hKi]
        | none =>
          simp only [hl] at h
          injection h with h
          injection h with h1 h2
          rw [← h2]
          show lookupA (ignore t info.id).tracked K = _
          unfold ignore
          rw [lookupA_insertA, if_neg hKi]
      | none =>
        simp only [hl] at h
        cases hu : lookupA U ((lookupA t.procIds info.static.parentPid).getD ⟨0, 0⟩) with
        | some pinfo =>
          simp only [hu] at h
          have hpK : pinfo.id ≠ K := by
            have hm := lookupA_mem U _ pinfo hu
            exact hU _ hm
          cases hrec : checkAncestryF n t pinfo U with
          | none => simp only [hrec] at h; cases h
          | some res =>
            simp only [hrec] at h
            have hpres := ih t pinfo U res.1 res.2 hpK hU (by rw [hrec])
            by_cases hname : res.1 ≠ ""
            · rw [if_pos hname] at h
              injection h with h
              injection h with h1 h2
              rw [← h2]
              show lookupA (track res.2 res.1 info).tracked K = _
              unfold track
              rw [lookupA_insertA, if_neg hKi]
              exact hpres
            · rw [if_neg hname] at h
              injection h with h
              injection h with h1 h2
              rw [← h2]
              show lookupA (ignore res.2 info.id).tracked K = _
              unfold ignore
              rw [lookupA_insertA, if_neg hKi]
              exact hpres
        | none =>
          simp only [hu] at h
          injection h with h
          injection h with h1 h2
          rw [← h2]
          show lookupA (ignore t info.id).tracked K = _
          unfold ignore
          rw [lookupA_insertA, if_neg hKi]

theorem step2Fold_none (fuel : Nat) (U l : List (ID × IDInfo)) :
    l.foldl (step2Fold fuel U) none = none := by
  induction l with
  | nil => rfl
  | cons e rest ih => rw [List.foldl_cons]; exact ih

theorem step2F_tombstone_pres (fuel : Nat) (U : List (ID × IDInfo)) (K : ID)
    (hU : ∀ e ∈ U, e.2.id ≠ K) :
    ∀ (l : List (ID × IDInfo)) (t t3 : State),
    (∀ e ∈ l, e.2.id ≠ K) →
    l.foldl (step2Fold fuel U) (some t) = some t3 →
    lookupA t3.tracked K = lookupA t.tracked K := by
  intro l
  induction l with
  | nil =>
    intro t t3 _ h
    injection h with h
    rw [h]
  | cons e rest ih =>
    intro t t3 hl h
    rw [List.foldl_cons] at h
    have he : e.2.id ≠ K := hl e (List.mem_cons_self e rest)
    have hrest : ∀ e2 ∈ rest, e2.2.id ≠ K := fun e2 h2 => hl e2 (List.mem_cons_of_mem e h2)
    cases hlk : lookupA t.tracked e.1 with
    | some o =>
      have he2 : step2Fold fuel U (some t) e = some t := by
        unfold step2Fold
        simp only [hlk]
      rw [he2] at h
      exact ih t t3 hrest h
    | none =>
      cases hca : checkAncestryF fuel t e.2 U with
      | none =>
        have he2 : step2Fold fuel U (some t) e = none := by
          unfold step2Fold
          simp only [hlk, hca]
        rw [he2, step2Fold_none] at h
        cases h
      | some res =>
        have he2 : step2Fold fuel U (some t) e = some res.2 := by
          unfold step2Fold
          simp only [hlk, hca]
        rw [he2] at h
        have h1 := ih res.2 t3 hrest h
        rw [h1]
        exact checkAncestry_tracked_pres K fuel t e.2 U res.1 res.2 he hU (by rw [hca])

/-- C5 (amended): ignored tombstones are never retired by the end-of-cycle
removal: after any Update cycle in which the tombstone's pid is not taken
over by a new process (in particular whenever the key is not produced at
all), the tombstone is still in the registry.  Only tracked entries are
subject to the `lastUpdate` retirement rule; a tombstone is deleted only by
the pid-reuse path of `handleProc`. -/
theorem c5_tombstone_persists (t : State) (K : ID) (procs : List SnapProc)
    (fuel now : Nat) (r : CollectErrors × List UpdateR × State)
    (ht : lookupA t.tracked K = some none)
    (hwf : WFpids t)
    (hpid : ∀ p ∈ procs, ∀ id2, p.getProcID = Except.ok id2 → id2.pid ≠ K.pid ∨ id2 = K)
    (hr : UpdateF fuel t procs now = some r) :
    lookupA r.2.2.tracked K = some none := by
  rcases updateFold_tombstone_pres now K procs ([], ⟨0, 0⟩, t) ht hwf
      (fun np h => by cases h) hpid with ⟨f1, f2, f3⟩
  have hclean : lookupA (updatePhase t procs now).2.2.tracked K = some none :=
    cleanup_tombstone_pres _ now K f1
  have hnewp : ∀ np ∈ (updatePhase t procs now).1, np.id.pid ≠ K.pid := f3
  rcases step1_tombstone_pres (updatePhase t procs now).1 K hnewp
      ((updatePhase t procs now).2.2, []) hclean (fun e h => by cases h) with ⟨s1, s2⟩
  have hUne : ∀ e ∈ (step1 (updatePhase t procs now).2.2 (updatePhase t procs now).1).2,
      e.2.id ≠ K := by
    intro e he hid
    exact s2 e he (congrArg ID.pid hid)
  simp only [UpdateF] at hr
  cases hs2 : (if (step1 (updatePhase t procs now).2.2 (updatePhase t procs now).1).1.trackChildren
      then step2F fuel (step1 (updatePhase t procs now).2.2 (updatePhase t procs now).1).1
        (step1 (updatePhase t procs now).2.2 (updatePhase t procs now).1).2
      else some (step1 (updatePhase t procs now).2.2 (updatePhase t procs now).1).1) with
  | none =>
    rw [hs2] at hr
    cases hr
  | some t3 =>
    rw [hs2] at hr
    injection hr with hr
    rw [← hr]
    show lookupA t3.tracked K = some none
    revert hs2
    cases (step1 (updatePhase t procs now).2.2 (updatePhase t procs now).1).1.trackChildren with
    | false =>
      intro hs2
      rw [if_neg (by simp)] at hs2
      injection hs2 with hs2
      rw [← hs2]
      exact s1
    | true =>
      intro hs2
      rw [if_pos rfl] at hs2
      rw [← s1]
      exact step2F_tombstone_pres fuel _ K hUne _ _ t3 hUne hs2

/-- Witness for `c5_tombstone_persists`: the tombstone-only state run over
an empty snapshot. -/
theorem c5_tombstone_persists_witness :
    lookupA c5r.2.2.tracked K5 = some none :=
  c5_tombstone_persists stateC5 K5 [] 1 1 c5r rfl
    (fun pid id2 h => by
      by_cases hp : pid = (5 : Int)
      · subst hp
        injection h with h2
        rw [← h2]
        rfl
      · rw [show lookupA stateC5.procIds pid = none by
          simp [stateC5, lookupA, hp]] at h
        cases h)
    (fun p hp => absurd hp (List.not_mem_nil p))
    rfl

/-- C10: the claim asserts a failed (non-gone) per-process read leaves the
tracker entry in place for retry next scrape.  Here the tracked process
`K10` appears in the snapshot but its metrics read fails with a non-gone
error: the read error count becomes 1 and the process is excluded from the
cycle's updates as claimed, but its entry does NOT persist: the retirement
loop removes it because its lastUpdate was not refreshed. -/
theorem c10_counterexample :
    c10read = some 1 ∧ c10entry = some none ∧ c10ups = some [] := by
  exact ⟨rfl, rfl, rfl⟩

/-- C10 (amended): a per-process read during Update failing for a non-gone
reason increments the procread error count by exactly 1 (a gone failure
increments nothing) and the process is excluded from that cycle's updates,
but its tracker entry does not persist: since its lastUpdate is not
refreshed, the end-of-cycle retirement deletes the entry, and the process
will be treated as brand new on the next scrape rather than retried against
its stored baseline. -/
theorem c10_read_failure (t : State) (K : ID) (tp : trackedProc) (p : SnapProc) (e : PErr)
    (fuel now : Nat)
    (ht : lookupA t.tracked K = some (some tp))
    (hnd : NodupKeys t.tracked)
    (hnow : tp.lastUpdate ≠ now)
    (hid : p.getProcID = Except.ok K)
    (hm : p.getMetrics = Except.error e) :
    ∃ r, UpdateF fuel t [p] now = some r ∧
      r.1.read = (if e = PErr.gone then 0 else 1) ∧ r.1.softerrs = 0 ∧
      lookupA r.2.2.tracked K = none := by
  have hne : ¬ lookupA t.tracked K = some none := by
    rw [ht]
    intro h
    injection h with h
    cases h
  have hhp : handleProc t p now = (none, ⟨if e = PErr.gone then 0 else 1, 0⟩, t) := by
    simp only [handleProc, hid, hm]
    rw [if_neg hne]
  have hup : updatePhase t [p] now =
      ([], ⟨if e = PErr.gone then 0 else 1, 0⟩, cleanup t now) := by
    unfold updatePhase
    rw [List.foldl_cons, List.foldl_nil]
    unfold updateFoldStep
    rw [hhp]
    simp
  have hcl : lookupA (cleanup t now).tracked K = none := by
    unfold cleanup
    have := lookupA_filter_of_lookupA t.tracked K (some tp)
      (fun e2 => match e2.2 with
        | some tp2 => decide (tp2.lastUpdate = now)
        | none => true) ht hnd
    rw [this]
    rw [if_neg (by simp [hnow])]
  have hs1 : step1 (cleanup t now) [] = (cleanup t now, []) := rfl
  refine ⟨(⟨if e = PErr.gone then 0 else 1, 0⟩, collectUpdates (cleanup t now),
    cleanup t now), ?_, rfl, rfl, hcl⟩
  have heq : UpdateF fuel t [p] now =
      (match (if (step1 (updatePhase t [p] now).2.2 (updatePhase t [p] now).1).1.trackChildren
        then step2F fuel (step1 (updatePhase t [p] now).2.2 (updatePhase t [p] now).1).1
          (step1 (updatePhase t [p] now).2.2 (updatePhase t [p] now).1).2
        else some (step1 (updatePhase t [p] now).2.2 (updatePhase t [p] now).1).1) with
      | none => none
      | some t3 => some ((updatePhase t [p] now).2.1, collectUpdates t3, t3)) := rfl
  rw [heq]
  simp only [hup, hs1, step2_guard_nil]

/-- Witness for `c10_read_failure` at the concrete failing-read scenario. -/
theorem c10_read_failure_witness :
    ∃ r, UpdateF 1 stateC10 [pFail] 2 = some r ∧
      r.1.read = (if PErr.other = PErr.gone then 0 else 1) ∧ r.1.softerrs = 0 ∧
      lookupA r.2.2.tracked K10 = none :=
  c10_read_failure stateC10 K10 tpK pFail PErr.other 1 2 rfl (by show (stateC10.tracked.map Prod.fst).Nodup; decide) (by decide) rfl rfl

/-- C6: the claim asserts the parent-chain lookup terminates on every
snapshot, including cyclic parent links, within a hop budget equal to the
snapshot size.  Here the snapshot holds two new processes whose parent pids
point at each other; with recursion budget 2 (the snapshot size) the walk
has not returned, nor with budget 100: the recursive `checkAncestry` has no
hop bound and cycles forever (in Go, a stack overflow). -/
theorem c6_counterexample :
    c6res 2 = none ∧ c6res 100 = none := by
  exact ⟨rfl, rfl⟩

/-- C3: a pid observed again with a different start time is a distinct key:
handling the new life reads its static data and metrics, deletes the stale
entry for the old key, and (once the namer matches it) installs a fresh
entry whose accumulators are zero, so the first update emitted for the new
life carries a zero delta: nothing from the first life carries over. -/
theorem c3_pid_reuse (t : State) (pid : Int) (s1 s2 : Nat) (tp : trackedProc) (p : SnapProc)
    (metrics : Metrics) (soft : Nat) (static : Static) (gname : String) (fuel now : Nat)
    (hs : s1 ≠ s2)
    (_ht : lookupA t.tracked ⟨pid, s1⟩ = some (some tp))
    (hpi : lookupA t.procIds pid = some ⟨pid, s1⟩)
    (hunk : lookupA t.tracked ⟨pid, s2⟩ = none)
    (hid : p.getProcID = Except.ok ⟨pid, s2⟩)
    (hm : p.getMetrics = Except.ok (metrics, soft))
    (hst : p.getStatic = Except.ok static)
    (hn : t.namer static.name static.cmdline = (true, gname)) :
    ∃ r, UpdateF fuel t [p] now = some r ∧
      (⟨pid, s1⟩ : ID) ≠ (⟨pid, s2⟩ : ID) ∧
      lookupA r.2.2.tracked ⟨pid, s1⟩ = none ∧
      (∃ tp2, lookupA r.2.2.tracked ⟨pid, s2⟩ = some (some tp2) ∧
        tp2.lastaccum = Counts.zero ∧ tp2.groupName = gname ∧
        getUpdate tp2 ∈ r.2.1 ∧ (getUpdate tp2).latest = Counts.zero) := by
  have hK12 : (⟨pid, s1⟩ : ID) ≠ (⟨pid, s2⟩ : ID) := by
    intro h
    injection h with h1 h2
    exact hs h2
  have hne2 : ¬ lookupA t.tracked ⟨pid, s2⟩ = some none := by
    rw [hunk]
    intro h
    cases h
  have hhp : handleProc t p now =
      (some ⟨⟨pid, s2⟩, static, metrics, if t.trackThreads = true then p.getThreads else []⟩,
       ⟨0, soft⟩,
       { { t with tracked := eraseA t.tracked ⟨pid, s1⟩ } with
         procIds := insertA t.procIds pid ⟨pid, s2⟩ }) := by
    simp only [handleProc, hid]
    rw [if_neg hne2]
    simp only [hm, hunk, hst, hpi]
  have hup : updatePhase t [p] now =
      ([⟨⟨pid, s2⟩, static, metrics, if t.trackThreads = true then p.getThreads else []⟩],
       ⟨0, soft⟩,
       cleanup { { t with tracked := eraseA t.tracked ⟨pid, s1⟩ } with
         procIds := insertA t.procIds pid ⟨pid, s2⟩ } now) := by
    unfold updatePhase
    rw [List.foldl_cons, List.foldl_nil]
    unfold updateFoldStep
    rw [hhp]
    simp
  set t3 := { { t with tracked := eraseA t.tracked ⟨pid, s1⟩ } with
    procIds := insertA t.procIds pid ⟨pid, s2⟩ } with ht3
  set newinfo : IDInfo :=
    ⟨⟨pid, s2⟩, static, metrics, if t.trackThreads = true then p.getThreads else []⟩ with hni
  have hs1 : step1 (cleanup t3 now) [newinfo] = (track (cleanup t3 now) gname newinfo, []) := by
    unfold step1
    rw [List.foldl_cons, List.foldl_nil]
    have hnm : (cleanup t3 now).namer newinfo.static.name newinfo.static.cmdline =
        (true, gname) := hn
    simp only [hnm, if_true]
  set tf := track (cleanup t3 now) gname newinfo with htf
  have heq : UpdateF fuel t [p] now =
      (match (if (step1 (updatePhase t [p] now).2.2 (updatePhase t [p] now).1).1.trackChildren
        then step2F fuel (step1 (updatePhase t [p] now).2.2 (updatePhase t [p] now).1).1
          (step1 (updatePhase t [p] now).2.2 (updatePhase t [p] now).1).2
        else some (step1 (updatePhase t [p] now).2.2 (updatePhase t [p] now).1).1) with
      | none => none
      | some t4 => some ((updatePhase t [p] now).2.1, collectUpdates t4, t4)) := rfl
  have hrun : UpdateF fuel t [p] now = some (⟨0, soft⟩, collectUpdates tf, tf) := by
    rw [heq]
    simp only [hup, hs1, step2_guard_nil]
  refine ⟨(⟨0, soft⟩, collectUpdates tf, tf), hrun, hK12, ?_, ?_⟩
  · show lookupA tf.tracked ⟨pid, s1⟩ = none
    rw [htf]
    show lookupA (insertA (cleanup t3 now).tracked newinfo.id _) ⟨pid, s1⟩ = none
    rw [lookupA_insertA, if_neg hK12]
    apply lookupA_filter_none
    show lookupA t3.tracked ⟨pid, s1⟩ = none
    exact lookupA_eraseA_self t.tracked ⟨pid, s1⟩
  · refine ⟨newTrackedProc gname newinfo, ?_, rfl, rfl, ?_, rfl⟩
    · show lookupA tf.tracked ⟨pid, s2⟩ = some (some _)
      rw [htf]
      show lookupA (insertA (cleanup t3 now).tracked newinfo.id _) ⟨pid, s2⟩ = _
      rw [lookupA_insertA, if_pos rfl]
    · apply collectUpdates_mem tf ⟨pid, s2⟩
      rw [htf]
      show _ ∈ insertA (cleanup t3 now).tracked newinfo.id _
      exact List.Mem.head _
/-- Witness for `c3_pid_reuse`: pid 7 reappears with start ticks 200 after
a life with start ticks 100. -/
theorem c3_pid_reuse_witness :
    ∃ r, UpdateF 1 stateC3 [pC3] 2 = some r ∧
      (⟨7, 100⟩ : ID) ≠ (⟨7, 200⟩ : ID) ∧
      lookupA r.2.2.tracked ⟨7, 100⟩ = none ∧
      (∃ tp2, lookupA r.2.2.tracked ⟨7, 200⟩ = some (some tp2) ∧
        tp2.lastaccum = Counts.zero ∧ tp2.groupName = "app" ∧
        getUpdate tp2 ∈ r.2.1 ∧ (getUpdate tp2).latest = Counts.zero) :=
  c3_pid_reuse stateC3 7 100 200 tpA pC3 metB 0 statB "app" 1 2
    (by decide) rfl rfl rfl rfl rfl rfl rfl

theorem checkAncestryF_fuel (t : State) (U : List (ID × IDInfo)) (rank : IDInfo → Nat)
    (hrank : ∀ info pinfo, lookupA U (parentIDOf t info) = some pinfo → rank pinfo < rank info) :
    ∀ (n : Nat) (info : IDInfo), rank info < n → checkAncestryF n t info U ≠ none := by
  intro n
  induction n with
  | zero => intro info h; cases h
  | succ m ih =>
    intro info hn
    rw [checkAncestryF]
    by_cases hroot : ((lookupA t.procIds info.static.parentPid).getD ⟨0, 0⟩).pid < 1
    · rw [if_pos hroot]
      intro h
      cases h
    · rw [if_neg hroot]
      cases hl : lookupA t.tracked ((lookupA t.procIds info.static.parentPid).getD ⟨0, 0⟩) with
      | some o =>
        cases o with
        | some ptproc => intro h; cases h
        | none => intro h; cases h
      | none =>
        cases hu : lookupA U ((lookupA t.procIds info.static.parentPid).getD ⟨0, 0⟩) with
        | some pinfo =>
          have hdec : rank pinfo < rank info := hrank info pinfo hu
          have hm2 : rank pinfo < m := by omega
          have hne := ih pinfo hm2
          cases hrec : checkAncestryF m t pinfo U with
          | none => exact absurd hrec hne
          | some res =>
            simp only [hrec]
            by_cases hname : res.1 ≠ ""
            · rw [if_pos hname]
              intro h
              cases h
            · rw [if_neg hname]
              intro h
              cases h
        | none => intro h; cases h

/-- C6 (amended): when the parent links among the newly observed processes
admit a strictly decreasing rank bounded by the number of untracked new
processes (i.e. they are acyclic), every `checkAncestry` walk returns
within (number of untracked new processes) + 1 recursion steps.  Without
acyclicity the recursion does not return at all (see the counterexample):
the source has no hop bound. -/
theorem c6_acyclic_termination (t : State) (U : List (ID × IDInfo)) (rank : IDInfo → Nat)
    (info : IDInfo)
    (hrank : ∀ inf2 pinfo, lookupA U (parentIDOf t inf2) = some pinfo → rank pinfo < rank inf2)
    (hbound : ∀ inf2, rank inf2 ≤ U.length) :
    checkAncestryF (U.length + 1) t info U ≠ none :=
  checkAncestryF_fuel t U rank hrank (U.length + 1) info (by
    have := hbound info
    omega)

/-- Witness for `c6_acyclic_termination`: a one-element untracked map whose
walk finds a tracked parent in one hop. -/
theorem c6_acyclic_termination_witness :
    checkAncestryF (UW.length + 1) tW infoW UW ≠ none :=
  c6_acyclic_termination tW UW (fun _ => 0) infoW
    (fun inf2 pinfo h => by
      exfalso
      revert h
      unfold parentIDOf
      by_cases hp : inf2.static.parentPid = (10 : Int)
      · rw [show lookupA tW.procIds inf2.static.parentPid = some ⟨10, 3⟩ by
          rw [hp]; rfl]
        intro h
        cases h
      · rw [show lookupA tW.procIds inf2.static.parentPid = none by
          simp [tW, lookupA, hp]]
        intro h
        cases h)
    (fun _ => Nat.zero_le _)

theorem mem_nodup_lookupA {κ β : Type} [DecidableEq κ] (l : List (κ × β)) (k : κ) (v : β)
    (hnd : NodupKeys l) (h : (k, v) ∈ l) : lookupA l k = some v := by
  induction l with
  | nil => cases h
  | cons e rest ih =>
    have hem : e.1 ∉ rest.map Prod.fst := by
      unfold NodupKeys at hnd
      rw [List.map_cons, List.nodup_cons] at hnd
      exact hnd.1
    have hnd2 : NodupKeys rest := by
      unfold NodupKeys at hnd
      rw [List.map_cons, List.nodup_cons] at hnd
      exact hnd.2
    rcases List.mem_cons.mp h with h1 | h1
    · rw [← h1]
      simp [lookupA]
    · have hk : k ≠ e.1 := by
        intro he
        apply hem
        rw [← he]
        exact List.mem_map_of_mem Prod.fst h1
      simp only [lookupA, if_neg hk]
      exact ih hnd2 h1

theorem step1_untracked_wf (nps : List IDInfo) :
    ∀ (acc : State × List (ID × IDInfo)),
    (∀ e ∈ acc.2, e.2.id = e.1) → NodupKeys acc.2 →
    (∀ e ∈ (nps.foldl (fun (acc : State × List (ID × IDInfo)) idinfo =>
        let r := acc.1.namer idinfo.static.name idinfo.static.cmdline
        if r.1 then (track acc.1 r.2 idinfo, acc.2)
        else (acc.1, insertA acc.2 idinfo.id idinfo)) acc).2, e.2.id = e.1) ∧
    NodupKeys (nps.foldl (fun (acc : State × List (ID × IDInfo)) idinfo =>
        let r := acc.1.namer idinfo.static.name idinfo.static.cmdline
        if r.1 then (track acc.1 r.2 idinfo, acc.2)
        else (acc.1, insertA acc.2 idinfo.id idinfo)) acc).2 := by
  induction nps with
  | nil => intro acc h1 h2; exact ⟨h1, h2⟩
  | cons np rest ih =>
    intro acc h1 h2
    rw [List.foldl_cons]
    cases hw : (acc.1.namer np.static.name np.static.cmdline).1 with
    | true =>
      have hstep : (let r := acc.1.namer np.static.name np.static.cmdline
          if r.1 then (track acc.1 r.2 np, acc.2)
          else (acc.1, insertA acc.2 np.id np)) =
          (track acc.1 (acc.1.namer np.static.name np.static.cmdline).2 np, acc.2) := by
        simp only [hw, if_true]
      rw [hstep]
      exact ih _ h1 h2
    | false =>
      have hstep : (let r := acc.1.namer np.static.name np.static.cmdline
          if r.1 then (track acc.1 r.2 np, acc.2)
          else (acc.1, insertA acc.2 np.id np)) = (acc.1, insertA acc.2 np.id np) := by
        simp only [hw, Bool.false_eq_true, if_false]
      rw [hstep]
      apply ih
      · intro e he
        rcases mem_insertA acc.2 np.id np e he with h | h
        · rw [h]
        · exact h1 e h
      · exact nodupKeys_insertA acc.2 np.id np h2

theorem chainVerdict_det (t : State) (U : List (ID × IDInfo)) :
    ∀ (inf : IDInfo) (s1 s2 : String),
    ChainVerdict t U inf s1 → ChainVerdict t U inf s2 → s1 = s2 := by
  intro inf s1 s2 h1
  induction h1 generalizing s2 with
  | root info hr =>
    intro h2
    cases h2 with
    | root _ _ => rfl
    | trackedPar _ tp hnr _ => exact absurd hr hnr
    | ignoredPar _ hnr _ => exact absurd hr hnr
    | newPar _ pinfo _ hnr _ _ _ => exact absurd hr hnr
    | deadPar _ hnr _ _ => exact absurd hr hnr
  | trackedPar info tp hnr hl =>
    intro h2
    cases h2 with
    | root _ hr => exact absurd hr hnr
    | trackedPar _ tp2 _ hl2 =>
      rw [hl] at hl2
      injection hl2 with hl2
      injection hl2 with hl2
      rw [hl2]
    | ignoredPar _ _ hl2 => simp [hl] at hl2
    | newPar _ pinfo _ _ hl2 _ _ => simp [hl] at hl2
    | deadPar _ _ hl2 _ => simp [hl] at hl2
  | ignoredPar info hnr hl =>
    intro h2
    cases h2 with
    | root _ hr => exact absurd hr hnr
    | trackedPar _ tp2 _ hl2 => simp [hl] at hl2
    | ignoredPar _ _ _ => rfl
    | newPar _ pinfo _ _ hl2 _ _ => simp [hl] at hl2
    | deadPar _ _ hl2 _ => simp [hl] at hl2
  | newPar info pinfo s hnr hl hu hv ih =>
    intro h2
    cases h2 with
    | root _ hr => exact absurd hr hnr
    | trackedPar _ tp2 _ hl2 => simp [hl] at hl2
    | ignoredPar _ _ hl2 => simp [hl] at hl2
    | newPar _ pinfo2 s2 _ _ hu2 hv2 =>
      rw [hu] at hu2
      injection hu2 with hu2
      rw [← hu2] at hv2
      exact ih s2 hv2
    | deadPar _ _ _ hu2 => simp [hu] at hu2
  | deadPar info hnr hl hu =>
    intro h2
    cases h2 with
    | root _ hr => exact absurd hr hnr
    | trackedPar _ tp2 _ hl2 => simp [hl] at hl2
    | ignoredPar _ _ hl2 => simp [hl] at hl2
    | newPar _ pinfo2 s2 _ _ hu2 _ => simp [hu] at hu2
    | deadPar _ _ _ _ => rfl

theorem inv_insert (t1 : State) (U : List (ID × IDInfo)) (S : State) (info : IDInfo)
    (v : Option trackedProc)
    (hinv : Inv t1 U S)
    (ht1n : lookupA t1.tracked info.id = none)
    (hU : lookupA U info.id = some info)
    (hv : VMatch t1 U info v) :
    Inv t1 U { S with tracked := insertA S.tracked info.id v } := by
  obtain ⟨hpids, hmono, hcons⟩ := hinv
  refine ⟨hpids, ?_, ?_⟩
  · intro id w h
    have hs := hmono id w h
    show lookupA (insertA S.tracked info.id v) id = some w
    rw [lookupA_insertA]
    by_cases hid : id = info.id
    · subst hid
      rw [ht1n] at h
      cases h
    · rw [if_neg hid]
      exact hs
  · intro id w h
    replace h : lookupA (insertA S.tracked info.id v) id = some w := h
    rw [lookupA_insertA] at h
    by_cases hid : id = info.id
    · subst hid
      rw [if_pos rfl] at h
      injection h with h
      subst h
      exact Or.inr ⟨ht1n, info, hU, hv⟩
    · rw [if_neg hid] at h
      exact hcons id w h

theorem walk_correct (t1 : State) (U : List (ID × IDInfo))
    (hne : HneTracked t1)
    (hUwf : ∀ e ∈ U, e.2.id = e.1) :
    ∀ (fuel : Nat) (S : State) (info : IDInfo) (name : String) (S2 : State),
    Inv t1 U S →
    lookupA S.tracked info.id = none →
    lookupA U info.id = some info →
    checkAncestryF fuel S info U = some (name, S2) →
    ChainVerdict t1 U info name ∧ Inv t1 U S2 ∧
    (∀ id v, lookupA S.tracked id = some v → lookupA S2.tracked id = some v) ∧
    (∃ v, lookupA S2.tracked info.id = some v) := by
  intro fuel
  induction fuel with
  | zero =>
    intro S info name S2 _ _ _ hchk
    cases hchk
  | succ m ih =>
    intro S info name S2 hinv hSn hUinfo hchk
    have hinv2 : S.procIds = t1.procIds ∧
        (∀ id v, lookupA t1.tracked id = some v → lookupA S.tracked id = some v) ∧
        (∀ id v, lookupA S.tracked id = some v →
          lookupA t1.tracked id = some v ∨
          (lookupA t1.tracked id = none ∧
            ∃ inf, lookupA U id = some inf ∧ VMatch t1 U inf v)) := hinv
    obtain ⟨hpids, hmono, hcons⟩ := hinv2
    have ht1n : lookupA t1.tracked info.id = none := by
      cases hx : lookupA t1.tracked info.id with
      | none => rfl
      | some w =>
        rw [hmono info.id w hx] at hSn
        cases hSn
    rw [checkAncestryF] at hchk
    rw [hpids] at hchk
    rw [show (lookupA t1.procIds info.static.parentPid).getD ⟨0, 0⟩ = parentIDOf t1 info
      from rfl] at hchk
    by_cases hroot : (parentIDOf t1 info).pid < 1
    · rw [if_pos hroot] at hchk
      simp only [Option.some.injEq, Prod.mk.injEq] at hchk
      obtain ⟨hn, hS⟩ := hchk
      subst hn
      subst hS
      have hvd : ChainVerdict t1 U info "" := ChainVerdict.root info hroot
      refine ⟨hvd, inv_insert t1 U S info none ⟨hpids, hmono, hcons⟩ ht1n hUinfo hvd, ?_, ?_⟩
      · intro id v h
        show lookupA (insertA S.tracked info.id none) id = some v
        rw [lookupA_insertA]
        by_cases hid : id = info.id
        · subst hid
          rw [hSn] at h
          cases h
        · rw [if_neg hid]
          exact h
      · refine ⟨none, ?_⟩
        show lookupA (insertA S.tracked info.id none) info.id = some none
        rw [lookupA_insertA, if_pos rfl]
    · rw [if_neg hroot] at hchk
      cases hlp : lookupA S.tracked (parentIDOf t1 info) with
      | some o =>
        cases o with
        | some ptproc =>
          simp only [hlp] at hchk
          simp only [Option.some.injEq, Prod.mk.injEq] at hchk
          obtain ⟨hn, hS⟩ := hchk
          subst hn
          subst hS
          have hdis := hcons (parentIDOf t1 info) (some ptproc) hlp
          have hgv : ptproc.groupName ≠ "" ∧ ChainVerdict t1 U info ptproc.groupName := by
            rcases hdis with ht1e | ⟨ht1no, inf2, hU2, hvm⟩
            · exact ⟨hne (parentIDOf t1 info) ptproc ht1e,
                ChainVerdict.trackedPar info ptproc hroot ht1e⟩
            · have hvm2 : ptproc.groupName ≠ "" ∧ ChainVerdict t1 U inf2 ptproc.groupName := hvm
              exact ⟨hvm2.1, ChainVerdict.newPar info inf2 ptproc.groupName hroot ht1no hU2 hvm2.2⟩
          refine ⟨hgv.2, inv_insert t1 U S info (some (newTrackedProc ptproc.groupName info))
            ⟨hpids, hmono, hcons⟩ ht1n hUinfo ⟨hgv.1, hgv.2⟩, ?_, ?_⟩
          · intro id v h
            show lookupA (insertA S.tracked info.id (some (newTrackedProc ptproc.groupName info)))
              id = some v
            rw [lookupA_insertA]
            by_cases hid : id = info.id
            · subst hid
              rw [hSn] at h
              cases h
            · rw [if_neg hid]
              exact h
          · refine ⟨some (newTrackedProc ptproc.groupName info), ?_⟩
            show lookupA (insertA S.tracked info.id (some (newTrackedProc ptproc.groupName info)))
              info.id = some (some (newTrackedProc ptproc.groupName info))
            rw [lookupA_insertA, if_pos rfl]
        | none =>
          simp only [hlp] at hchk
          simp only [Option.some.injEq, Prod.mk.injEq] at hchk
          obtain ⟨hn, hS⟩ := hchk
          subst hn
          subst hS
          have hvd : ChainVerdict t1 U info "" := by
            rcases hcons (parentIDOf t1 info) none hlp with ht1e | ⟨ht1no, inf2, hU2, hvm⟩
            · exact ChainVerdict.ignoredPar info hroot ht1e
            · have hvm2 : ChainVerdict t1 U inf2 "" := hvm
              exact ChainVerdict.newPar info inf2 "" hroot ht1no hU2 hvm2
          refine ⟨hvd, inv_insert t1 U S info none ⟨hpids, hmono, hcons⟩ ht1n hUinfo hvd, ?_, ?_⟩
          · intro id v h
            show lookupA (insertA S.tracked info.id none) id = some v
            rw [lookupA_insertA]
            by_cases hid : id = info.id
            · subst hid
              rw [hSn] at h
              cases h
            · rw [if_neg hid]
              exact h
          · refine ⟨none, ?_⟩
            show lookupA (insertA S.tracked info.id none) info.id = some none
            rw [lookupA_insertA, if_pos rfl]
      | none =>
        simp only [hlp] at hchk
        have ht1pn : lookupA t1.tracked (parentIDOf t1 info) = none := by
          cases hx : lookupA t1.tracked (parentIDOf t1 info) with
          | none => rfl
          | some w =>
            rw [hmono (parentIDOf t1 info) w hx] at hlp
            cases hlp
        cases hU2 : lookupA U (parentIDOf t1 info) with
        | some pinfo =>
          simp only [hU2] at hchk
          have hpid : pinfo.id = parentIDOf t1 info :=
            hUwf (parentIDOf t1 info, pinfo) (lookupA_mem U (parentIDOf t1 info) pinfo hU2)
          cases hrec : checkAncestryF m S pinfo U with
          | none =>
            rw [hrec] at hchk
            cases hchk
          | some res =>
            obtain ⟨nm, S3⟩ := res
            simp only [hrec] at hchk
            have hSpn : lookupA S.tracked pinfo.id = none := by
              rw [hpid]
              exact hlp
            have hUpn : lookupA U pinfo.id = some pinfo := by
              rw [hpid]
              exact hU2
            obtain ⟨hv3, hinv3, hmono3, _⟩ :=
              ih S pinfo nm S3 ⟨hpids, hmono, hcons⟩ hSpn hUpn hrec
            by_cases hnm : nm ≠ ""
            · rw [if_pos hnm] at hchk
              simp only [Option.some.injEq, Prod.mk.injEq] at hchk
              obtain ⟨hn, hS⟩ := hchk
              subst hn
              subst hS
              have hvd : ChainVerdict t1 U info nm :=
                ChainVerdict.newPar info pinfo nm hroot ht1pn hU2 hv3
              refine ⟨hvd, inv_insert t1 U S3 info (some (newTrackedProc nm info)) hinv3 ht1n
                hUinfo ⟨hnm, hvd⟩, ?_, ?_⟩
              · intro id v h
                have h3 := hmono3 id v h
                show lookupA (insertA S3.tracked info.id (some (newTrackedProc nm info))) id =
                  some v
                rw [lookupA_insertA]
                by_cases hid : id = info.id
                · subst hid
                  rw [hSn] at h
                  cases h
                · rw [if_neg hid]
                  exact h3
              · refine ⟨some (newTrackedProc nm info), ?_⟩
                show lookupA (insertA S3.tracked info.id (some (newTrackedProc nm info))) info.id =
                  some (some (newTrackedProc nm info))
                rw [lookupA_insertA, if_pos rfl]
            · rw [if_neg hnm] at hchk
              have hnm2 : nm = "" := not_not.mp hnm
              subst hnm2
              simp only [Option.some.injEq, Prod.mk.injEq] at hchk
              obtain ⟨hn, hS⟩ := hchk
              subst hn
              subst hS
              have hvd : ChainVerdict t1 U info "" :=
                ChainVerdict.newPar info pinfo "" hroot ht1pn hU2 hv3
              refine ⟨hvd, inv_insert t1 U S3 info none hinv3 ht1n hUinfo hvd, ?_, ?_⟩
              · intro id v h
                have h3 := hmono3 id v h
                show lookupA (insertA S3.tracked info.id none) id = some v
                rw [lookupA_insertA]
                by_cases hid : id = info.id
                · subst hid
                  rw [hSn] at h
                  cases h
                · rw [if_neg hid]
                  exact h3
              · refine ⟨none, ?_⟩
                show lookupA (insertA S3.tracked info.id none) info.id = some none
                rw [lookupA_insertA, if_pos rfl]
        | none =>
          simp only [hU2] at hchk
          simp only [Option.some.injEq, Prod.mk.injEq] at hchk
          obtain ⟨hn, hS⟩ := hchk
          subst hn
          subst hS
          have hvd : ChainVerdict t1 U info "" :=
            ChainVerdict.deadPar info hroot ht1pn hU2
          refine ⟨hvd, inv_insert t1 U S info none ⟨hpids, hmono, hcons⟩ ht1n hUinfo hvd, ?_, ?_⟩
          · intro id v h
            show lookupA (insertA S.tracked info.id none) id = some v
            rw [lookupA_insertA]
            by_cases hid : id = info.id
            · subst hid
              rw [hSn] at h
              cases h
            · rw [if_neg hid]
              exact h
          · refine ⟨none, ?_⟩
            show lookupA (insertA S.tracked info.id none) info.id = some none
            rw [lookupA_insertA, if_pos rfl]

theorem step2fold_correct (t1 : State) (U : List (ID × IDInfo)) (fuel : Nat)
    (hne : HneTracked t1)
    (hUwf : ∀ e ∈ U, e.2.id = e.1)
    (hUnd : NodupKeys U) :
    ∀ (l : List (ID × IDInfo)) (S Sf : State),
    (∀ e ∈ l, e ∈ U) →
    Inv t1 U S →
    l.foldl (step2Fold fuel U) (some S) = some Sf →
    Inv t1 U Sf ∧
    (∀ id v, lookupA S.tracked id = some v → lookupA Sf.tracked id = some v) ∧
    (∀ e ∈ l, ∃ v, lookupA Sf.tracked e.1 = some v) := by
  intro l
  induction l with
  | nil =>
    intro S Sf _ hinv hf
    rw [List.foldl_nil] at hf
    injection hf with hf
    subst hf
    exact ⟨hinv, fun id v h => h, fun e he => absurd he (List.not_mem_nil e)⟩
  | cons e rest ihl =>
    intro S Sf hl hinv hf
    rw [List.foldl_cons] at hf
    cases hSl : lookupA S.tracked e.1 with
    | some w =>
      have hse : step2Fold fuel U (some S) e = some S := by
        unfold step2Fold
        simp only [hSl]
      rw [hse] at hf
      obtain ⟨hinvf, hmonof, hdecf⟩ :=
        ihl S Sf (fun x hx => hl x (List.mem_cons_of_mem e hx)) hinv hf
      refine ⟨hinvf, hmonof, ?_⟩
      intro x hx
      rcases List.mem_cons.mp hx with h1 | h1
      · subst h1
        exact ⟨w, hmonof x.1 w hSl⟩
      · exact hdecf x h1
    | none =>
      cases hca : checkAncestryF fuel S e.2 U with
      | none =>
        have hse : step2Fold fuel U (some S) e = none := by
          unfold step2Fold
          simp only [hSl, hca]
        rw [hse, step2Fold_none] at hf
        cases hf
      | some r =>
        obtain ⟨nm, S2⟩ := r
        have hse : step2Fold fuel U (some S) e = some S2 := by
          unfold step2Fold
          simp only [hSl, hca]
        rw [hse] at hf
        have heU : e ∈ U := hl e (List.mem_cons_self e rest)
        have heid : e.2.id = e.1 := hUwf e heU
        have hUe : lookupA U e.2.id = some e.2 := by
          rw [heid]
          exact mem_nodup_lookupA U e.1 e.2 hUnd heU
        have hSe : lookupA S.tracked e.2.id = none := by
          rw [heid]
          exact hSl
        obtain ⟨_, hinv2, hmono2, hdec2⟩ :=
          walk_correct t1 U hne hUwf fuel S e.2 nm S2 hinv hSe hUe hca
        obtain ⟨hinvf, hmonof, hdecf⟩ :=
          ihl S2 Sf (fun x hx => hl x (List.mem_cons_of_mem e hx)) hinv2 hf
        refine ⟨hinvf, fun id v h => hmonof id v (hmono2 id v h), ?_⟩
        intro x hx
        rcases List.mem_cons.mp hx with h1 | h1
        · subst h1
          obtain ⟨v, hvv⟩ := hdec2
          refine ⟨v, hmonof x.1 v ?_⟩
          rw [← heid]
          exact hvv
        · exact hdecf x h1

/-- C4: when `trackChildren` is true, the ancestry pass of `Tracker.Update`
settles every untracked new process according to its parent-chain verdict
over the post-classification state: a chain that reaches a tracked process
leaves it tracked under that ancestor's group name (non-empty, as the
selector guarantees of every live entry), and a chain that reaches pid < 1,
an ignored parent, or a missing parent leaves it marked ignored
(a tombstone). -/
theorem c4_child_inheritance (fuel now : Nat) (t : State) (procs : List SnapProc)
    (t1 : State) (U : List (ID × IDInfo))
    (res : CollectErrors × List UpdateR × State)
    (hs1 : step1 (updatePhase t procs now).2.2 (updatePhase t procs now).1 = (t1, U))
    (htc : t1.trackChildren = true)
    (hne : HneTracked t1)
    (hr : UpdateF fuel t procs now = some res)
    (id : ID) (inf : IDInfo)
    (hU : lookupA U id = some inf)
    (hnt : lookupA t1.tracked id = none) :
    (∀ g, g ≠ "" → ChainVerdict t1 U inf g →
      ∃ tp, lookupA res.2.2.tracked id = some (some tp) ∧ tp.groupName = g) ∧
    (ChainVerdict t1 U inf "" → lookupA res.2.2.tracked id = some none) := by
  have hwf := step1_untracked_wf (updatePhase t procs now).1
      ((updatePhase t procs now).2.2, ([] : List (ID × IDInfo)))
      (fun e he => absurd he (List.not_mem_nil e))
      (by
        show List.Nodup (List.map Prod.fst ([] : List (ID × IDInfo)))
        exact List.nodup_nil)
  have hUwf0 : ∀ e ∈ (step1 (updatePhase t procs now).2.2 (updatePhase t procs now).1).2,
      e.2.id = e.1 := hwf.1
  have hUnd0 : NodupKeys (step1 (updatePhase t procs now).2.2 (updatePhase t procs now).1).2 :=
    hwf.2
  rw [hs1] at hUwf0 hUnd0
  have hUwf : ∀ e ∈ U, e.2.id = e.1 := hUwf0
  have hUnd : NodupKeys U := hUnd0
  simp only [UpdateF] at hr
  simp only [hs1] at hr
  rw [htc] at hr
  rw [if_pos rfl] at hr
  cases hs2 : step2F fuel t1 U with
  | none =>
    simp only [hs2] at hr
    cases hr
  | some t3 =>
    simp only [hs2] at hr
    injection hr with hr
    subst hr
    obtain ⟨hinvf, _, hdecf⟩ := step2fold_correct t1 U fuel hne hUwf hUnd U t1 t3
      (fun e he => he) ⟨rfl, fun i v h => h, fun i v h => Or.inl h⟩ hs2
    have hmem : (id, inf) ∈ U := lookupA_mem U id inf hU
    obtain ⟨v, hv⟩ := hdecf (id, inf) hmem
    have hv2 : lookupA t3.tracked id = some v := hv
    have hinv2 : t3.procIds = t1.procIds ∧
        (∀ i v2, lookupA t1.tracked i = some v2 → lookupA t3.tracked i = some v2) ∧
        (∀ i v2, lookupA t3.tracked i = some v2 →
          lookupA t1.tracked i = some v2 ∨
          (lookupA t1.tracked i = none ∧
            ∃ inf2, lookupA U i = some inf2 ∧ VMatch t1 U inf2 v2)) := hinvf
    obtain ⟨_, _, hcons⟩ := hinv2
    rcases hcons id v hv2 with ht1e | ⟨_, inf2, hU2, hvm⟩
    · rw [hnt] at ht1e
      cases ht1e
    · rw [hU] at hU2
      injection hU2 with hU2
      subst hU2
      constructor
      · intro g hg hvg
        cases v with
        | none =>
          have hvm2 : ChainVerdict t1 U inf "" := hvm
          exact absurd (chainVerdict_det t1 U inf g "" hvg hvm2) hg
        | some tp =>
          have hvm2 : tp.groupName ≠ "" ∧ ChainVerdict t1 U inf tp.groupName := hvm
          refine ⟨tp, ?_, (chainVerdict_det t1 U inf g tp.groupName hvg hvm2.2).symm⟩
          show lookupA t3.tracked id = some (some tp)
          exact hv2
      · intro hvg
        cases v with
        | none =>
          show lookupA t3.tracked id = some none
          exact hv2
        | some tp =>
          have hvm2 : tp.groupName ≠ "" ∧ ChainVerdict t1 U inf tp.groupName := hvm
          exact absurd (chainVerdict_det t1 U inf "" tp.groupName hvg hvm2.2).symm hvm2.1

/-- Witness for `c4_child_inheritance`: in the parent/child snapshot, pid 11
(comm "helper", child of the selected pid 10) ends the cycle tracked under
"parent-bin". -/
theorem c4_child_inheritance_witness :
    ∃ tp, lookupA c4r.2.2.tracked ⟨11, 4⟩ = some (some tp) ∧ tp.groupName = "parent-bin" :=
  (c4_child_inheritance 3 1 s4init [pr10, pr11] t1c UW c4r rfl rfl
    (fun id tp h => by
      have hm := lookupA_mem t1c.tracked id (some tp) h
      have he : t1c.tracked = [(⟨10, 3⟩, some tp10c)] := rfl
      rw [he] at hm
      rcases List.mem_cons.mp hm with h1 | h1
      · have h2 : some tp = some tp10c := congrArg Prod.snd h1
        injection h2 with h2
        subst h2
        decide
      · exact absurd h1 (List.not_mem_nil _))
    rfl ⟨11, 4⟩ infoW rfl rfl).1 "parent-bin" (by decide)
    (ChainVerdict.trackedPar infoW tp10c (by decide) rfl)

end NT


namespace RD

open PE OT

/-- C9: an individual optional-field failure never fails the whole
per-process read: with stat and limits readable, `GetMetrics` succeeds even
when the IO counters or the fd count are unreadable, returning the `-1`
sentinels for read/write bytes and for `openFDs` respectively. -/
theorem c9_soft_field_failure (p : RawProc) (stat : RawStat) (openFiles : Int)
    (hstat : p.stat = Except.ok stat)
    (hlim : p.limits = Except.ok openFiles) :
    ∃ m, GetMetrics p = Except.ok m ∧
      ((∃ e, p.io = Except.error e) → m.readBytes = -1 ∧ m.writeBytes = -1) ∧
      ((∃ e, p.numFds = Except.error e) → m.openFDs = -1) := by
  cases hio : p.io with
  | ok io =>
    cases hfd : p.numFds with
    | ok n =>
      refine ⟨⟨(stat.utime : Rat) / (userHZ : Rat), (stat.stime : Rat) / (userHZ : Rat),
          u64toI64 io.1, u64toI64 io.2, stat.residentMemory, stat.virtualMemory,
          (n : Int), i64toU64 openFiles, stat.majFlt, stat.minFlt⟩, ?_, ?_, ?_⟩
      · unfold GetMetrics
        simp only [hio, hstat, hfd, hlim]
      · rintro ⟨e, he⟩
        cases he
      · rintro ⟨e, he⟩
        cases he
    | error u =>
      refine ⟨⟨(stat.utime : Rat) / (userHZ : Rat), (stat.stime : Rat) / (userHZ : Rat),
          u64toI64 io.1, u64toI64 io.2, stat.residentMemory, stat.virtualMemory,
          -1, i64toU64 openFiles, stat.majFlt, stat.minFlt⟩, ?_, ?_, ?_⟩
      · unfold GetMetrics
        simp only [hio, hstat, hfd, hlim]
      · rintro ⟨e, he⟩
        cases he
      · intro _
        rfl
  | error u =>
    cases hfd : p.numFds with
    | ok n =>
      refine ⟨⟨(stat.utime : Rat) / (userHZ : Rat), (stat.stime : Rat) / (userHZ : Rat),
          -1, -1, stat.residentMemory, stat.virtualMemory,
          (n : Int), i64toU64 openFiles, stat.majFlt, stat.minFlt⟩, ?_, ?_, ?_⟩
      · unfold GetMetrics
        simp only [hio, hstat, hfd, hlim]
      · intro _
        exact ⟨rfl, rfl⟩
      · rintro ⟨e, he⟩
        cases he
    | error u2 =>
      refine ⟨⟨(stat.utime : Rat) / (userHZ : Rat), (stat.stime : Rat) / (userHZ : Rat),
          -1, -1, stat.residentMemory, stat.virtualMemory,
          -1, i64toU64 openFiles, stat.majFlt, stat.minFlt⟩, ?_, ?_, ?_⟩
      · unfold GetMetrics
        simp only [hio, hstat, hfd, hlim]
      · intro _
        exact ⟨rfl, rfl⟩
      · intro _
        rfl

/-- Witness for `c9_soft_field_failure`: `pSoft` has unreadable IO counters
and fd count yet a successful read with both sentinels. -/
theorem c9_soft_field_failure_witness :
    ∃ m, GetMetrics pSoft = Except.ok m ∧
      ((∃ e, pSoft.io = Except.error e) → m.readBytes = -1 ∧ m.writeBytes = -1) ∧
      ((∃ e, pSoft.numFds = Except.error e) → m.openFDs = -1) :=
  c9_soft_field_failure pSoft ⟨1, 2, 3, 4, 5, 6⟩ 1024 rfl rfl

end RD


namespace CLI

open PE

theorem buildMapper_pfx (compile : String → Option (String → List String)) :
    ∀ (ps : List (String × String)) (acc m : List (String × Option PrefixRegex)),
    (∀ nm pr, lookupA acc nm = some (some pr) → pr.pfx = nm ++ ":") →
    buildMapper compile ps acc = some m →
    ∀ nm pr, lookupA m nm = some (some pr) → pr.pfx = nm ++ ":" := by
  intro ps
  induction ps with
  | nil =>
    intro acc m hacc hb
    injection hb with hb
    subst hb
    exact hacc
  | cons p rest ih =>
    intro acc m hacc hb
    obtain ⟨name, regexstr⟩ := p
    rw [buildMapper] at hb
    cases hc : compile regexstr with
    | none =>
      rw [hc] at hb
      cases hb
    | some f =>
      simp only [hc] at hb
      refine ih (insertA acc name (some ⟨name ++ ":", f⟩)) m ?_ hb
      intro nm pr hl
      rw [lookupA_insertA] at hl
      by_cases hnm : nm = name
      · rw [if_pos hnm] at hl
        injection hl with hl
        injection hl with hl
        rw [← hl, hnm]
      · rw [if_neg hnm] at hl
        exact hacc nm pr hl

theorem addProcnames_someLookup :
    ∀ (names : List String) (m : List (String × Option PrefixRegex))
    (nm : String) (pr : PrefixRegex),
    lookupA (addProcnames names m) nm = some (some pr) →
    lookupA m nm = some (some pr) := by
  intro names
  induction names with
  | nil =>
    intro m nm pr h
    exact h
  | cons sname rest ih =>
    intro m nm pr h
    have hstep : addProcnames (sname :: rest) m =
        addProcnames rest
          (if sname = "" then m
           else
             match lookupA m sname with
             | some _ => m
             | none => insertA m sname none) := rfl
    rw [hstep] at h
    have h2 := ih _ nm pr h
    by_cases hs : sname = ""
    · rw [if_pos hs] at h2
      exact h2
    · rw [if_neg hs] at h2
      cases hlk : lookupA m sname with
      | some w =>
        simp only [hlk] at h2
        exact h2
      | none =>
        simp only [hlk] at h2
        rw [lookupA_insertA] at h2
        by_cases hnm : nm = sname
        · rw [if_pos hnm] at h2
          injection h2 with h2
          cases h2
        · rw [if_neg hnm] at h2
          exact h2

/-- C8 (amended): under the back-compat selector, a mapping entry with no
regex matches under the bare name; a regex entry matches under
`prefix + capture` exactly when the regex yields a non-empty capture on the
space-joined cmdline, and otherwise — contrary to the claim — yields
`(false, "")`, not `(true, name)`; a comm absent from the mapping never
matches; and every regex entry `parseNameMapper` builds (with the
`-procnames` nil entries added) carries prefix `name + ":"`. -/
theorem c8_matchandname (m : List (String × Option PrefixRegex)) (name : String)
    (cmdline : List String) :
    (lookupA m name = some none → MatchAndName m name cmdline = (true, name)) ∧
    (∀ pr, lookupA m name = some (some pr) →
      (∀ cap, firstCap pr cmdline = some cap →
        MatchAndName m name cmdline = (true, pr.pfx ++ cap)) ∧
      (firstCap pr cmdline = none → MatchAndName m name cmdline = (false, ""))) ∧
    (lookupA m name = none → MatchAndName m name cmdline = (false, "")) ∧
    (∀ (compile : String → Option (String → List String)) (toks names2 : List String)
      (m2 : List (String × Option PrefixRegex)),
      parseNameMapper compile toks = some m2 →
      ∀ nm pr, lookupA (addProcnames names2 m2) nm = some (some pr) →
        pr.pfx = nm ++ ":") := by
  refine ⟨?_, ?_, ?_, ?_⟩
  · intro h
    unfold MatchAndName
    simp only [h]
  · intro pr h
    constructor
    · intro cap hc
      unfold MatchAndName
      simp only [h]
      unfold firstCap at hc
      by_cases hlen : (pr.find (String.intercalate " " cmdline)).length > 1
      · rw [if_pos hlen] at hc ⊢
        cases hf : ((pr.find (String.intercalate " " cmdline)).drop 1).find?
            (fun c => decide (c ≠ "")) with
        | none =>
          rw [hf] at hc
          cases hc
        | some cap2 =>
          rw [hf] at hc
          injection hc with hc
          simp only [hf, hc]
      · rw [if_neg hlen] at hc
        cases hc
    · intro hc
      unfold MatchAndName
      simp only [h]
      unfold firstCap at hc
      by_cases hlen : (pr.find (String.intercalate " " cmdline)).length > 1
      · rw [if_pos hlen] at hc ⊢
        cases hf : ((pr.find (String.intercalate " " cmdline)).drop 1).find?
            (fun c => decide (c ≠ "")) with
        | none => simp only [hf]
        | some cap2 =>
          rw [hf] at hc
          cases hc
      · rw [if_neg hlen]
  · intro h
    unfold MatchAndName
    simp only [h]
  · intro compile toks names2 m2 hp nm pr hl
    have h2 := addProcnames_someLookup names2 m2 nm pr hl
    unfold parseNameMapper at hp
    by_cases h0 : toks = []
    · rw [if_pos h0] at hp
      injection hp with hp
      subst hp
      cases h2
    · rw [if_neg h0] at hp
      by_cases h1 : toks.length % 2 = 1
      · rw [if_pos h1] at hp
        cases hp
      · rw [if_neg h1] at hp
        by_cases h3 : toks.any (fun t => t = "")
        · rw [if_pos h3] at hp
          cases hp
        · rw [if_neg h3] at hp
          exact buildMapper_pfx compile (pairsOf toks) [] m2
            (fun nm2 pr2 hl2 => by cases hl2) hp nm pr h2

/-- Witness for `c8_matchandname`: a nil entry for "myapp" matches under
the bare name. -/
theorem c8_matchandname_witness :
    MatchAndName c8mapNil "myapp" ["myapp"] = (true, "myapp") :=
  (c8_matchandname c8mapNil "myapp" ["myapp"]).1 rfl

/-- C8 counterexample: "myapp" is in the procnames list and a regex was
supplied for it, but the regex produces no capture on the cmdline, so
`MatchAndName` returns `(false, "")` where the claim requires
`(true, "myapp")`. -/
theorem c8_counterexample :
    lookupA c8map "myapp" = some (some ⟨"myapp:", fun _ => []⟩) ∧
    MatchAndName c8map "myapp" ["myapp"] = (false, "") ∧
    MatchAndName c8map "myapp" ["myapp"] ≠ (true, "myapp") := by
  refine ⟨rfl, rfl, ?_⟩
  intro h
  have h2 : ((false, "") : Bool × String) = (true, "myapp") := h
  injection h2 with hb hs
  cases hb

end CLI
